import Mathlib

/-! Pulse Shop: order placement, inventory and admin sessions.

A shallow embedding of `src/server/index.js` (the Express handlers) over the
tables declared in `src/server/db.js`.

Modelling conventions.

* A table is the list of its rows, in insertion order.  A prepared statement is
  a function on the store: `SELECT ... .get` is the first matching row,
  `UPDATE`/`DELETE` map or filter the rows and report `changes`.
* `INTEGER PRIMARY KEY AUTOINCREMENT` is modelled with the `sqlite_sequence`
  counter of the table: the new rowid is one more than the larger of the counter
  and the largest rowid present.
* A JavaScript number and an SQLite REAL are IEEE doubles.  An integer-valued
  double is modelled by the `Int` it equals, and every sum, difference and
  product the handlers or SQLite compute in doubles is rounded with `toDouble`
  (round to nearest, ties to even, 53 significant bits).  Magnitudes of `2^1024`
  and more, which overflow, are outside the model.
* The driver binds every JavaScript number as a double, so `stock - ?` is a
  subtraction of doubles; a column of INTEGER affinity then keeps an
  integer-valued result as an integer.  A value read back from such a column is
  a double the handlers wrote, and is read exactly.
* Timestamps are `toISOString()` strings in the source, compared as text by
  SQLite.  For four-digit years that order is the order of the instants, so a
  timestamp is modelled as `Int` milliseconds since the epoch.
* `db.transaction(f)` runs `f` against the store and keeps its writes when `f`
  returns, and restores the store it started from when `f` throws.
-/

namespace PulseShop

/-! ## Values -/

/-- The unit in the last place of the double nearest to `n`, found by doubling
`u` until `n` has at most 53 bits in units of `u`. -/
def ulpFrom : Nat → Nat → Nat → Nat
  | 0, _, u => u
  | fuel + 1, n, u => if n < 9007199254740992 * u then u else ulpFrom fuel n (2 * u)

/-- The double nearest to the natural number `n`, ties to even. -/
def roundNat (n : Nat) : Nat :=
  if 2 * (n % ulpFrom 1024 n 1) < ulpFrom 1024 n 1 then
    n / ulpFrom 1024 n 1 * ulpFrom 1024 n 1
  else if ulpFrom 1024 n 1 < 2 * (n % ulpFrom 1024 n 1) then
    (n / ulpFrom 1024 n 1 + 1) * ulpFrom 1024 n 1
  else if n / ulpFrom 1024 n 1 % 2 = 0 then n / ulpFrom 1024 n 1 * ulpFrom 1024 n 1
  else (n / ulpFrom 1024 n 1 + 1) * ulpFrom 1024 n 1

/-- The double nearest to the integer `z`: the value a sum, difference or
product of doubles takes when its exact value is `z`. -/
def toDouble : Int → Int
  | .ofNat n => (roundNat n : Int)
  | .negSucc n => - (roundNat (n + 1) : Int)

/-- The constant `Number.MAX_SAFE_INTEGER`, `2^53 - 1`: up to it every integer
is a double. -/
def maxSafe : Int := 9007199254740991

/-- The result of `Number(v)` for a request value `v`.  A finite number that is
not integer-valued is recorded by the two readings the handlers take of it: its
integer part `floor` (which decides every comparison with an integer) and
`round100`, the value of `Math.round(v * 100)`. -/
inductive JsNum where
  | int (z : Int)
  | frac (floor : Int) (round100 : Int)
  | nan
  | inf (negative : Bool)
deriving DecidableEq, Repr

/-- The test `Number.isFinite`. -/
def JsNum.isFinite : JsNum → Bool
  | .int _ => true
  | .frac _ _ => true
  | .nan => false
  | .inf _ => false

/-- The test `Number.isInteger`. -/
def JsNum.isInteger : JsNum → Bool
  | .int _ => true
  | _ => false

/-- The comparison `x < 0` (false for NaN). -/
def JsNum.ltZero : JsNum → Bool
  | .int z => decide (z < 0)
  | .frac f _ => decide (f < 0)
  | .nan => false
  | .inf negative => negative

/-- The value of `Math.round(x * 100)` for a finite `x`. -/
def JsNum.round100 : JsNum → Int
  | .int z => toDouble (z * 100)
  | .frac _ r => r
  | _ => 0

/-- A number held in the `stock` column.  The column is declared `INTEGER`, and
SQLite keeps a bound value that is not integer-valued as the real it is; such a
value lies strictly between `floor` and `floor + 1` and has
`integral = false`.  An integer `z` is `⟨z, true⟩`. -/
structure SqlNum where
  floor : Int
  integral : Bool
deriving DecidableEq, Repr

/-- The stored value of a finite JavaScript number bound to a column. -/
def JsNum.toSql : JsNum → SqlNum
  | .int z => ⟨z, true⟩
  | .frac f _ => ⟨f, false⟩
  | _ => ⟨0, true⟩

/-- SQL `x >= q` for an integer `q`. -/
def SqlNum.ge (x : SqlNum) (q : Int) : Bool := decide (q ≤ x.floor)

/-- SQL `x - q` for a bound quantity `q` with `0 < q ≤ x`, a subtraction of
doubles.  On an integer-valued `x` the difference is rounded; on a value that
is not integer-valued it is exact, because such a double is below `2^52` and
`q` is a multiple of its unit in the last place. -/
def SqlNum.sub (x : SqlNum) (q : Int) : SqlNum :=
  if x.integral = true then ⟨toDouble (toDouble x.floor - q), true⟩
  else ⟨x.floor - q, false⟩

/-- The exact difference `x - q`. -/
def SqlNum.minus (x : SqlNum) (q : Int) : SqlNum := { x with floor := x.floor - q }

/-- JavaScript truthiness of an optional string field of a JSON body
(`undefined` and the empty string are falsy). -/
def truthy : Option String → Bool
  | none => false
  | some v => decide (v ≠ "")

/-! ## Tables (`db.js`, `init`) -/

structure User where
  id : Int
  email : String
  password_hash : String
  role : String
  created_at : Int
deriving DecidableEq, Repr

structure Product where
  id : Int
  name : String
  description : String
  price_cents : Int
  image_url : String
  stock : SqlNum
  category : String
  created_at : Int
deriving DecidableEq, Repr

structure Order where
  id : Int
  customer_name : String
  email : String
  total_cents : Int
  status : String
  created_at : Int
deriving DecidableEq, Repr

structure OrderItem where
  id : Int
  order_id : Int
  product_id : Int
  quantity : Int
  price_cents : Int
deriving DecidableEq, Repr

structure AdminSession where
  token : String
  user_id : Int
  expires_at : Int
  created_at : Int
deriving DecidableEq, Repr

/-- The database: the five tables and the `sqlite_sequence` counters of the
tables the handlers insert into with an automatic rowid. -/
structure Store where
  users : List User
  products : List Product
  orders : List Order
  order_items : List OrderItem
  admin_sessions : List AdminSession
  seq_products : Int
  seq_orders : Int
  seq_order_items : Int
deriving DecidableEq, Repr

/-- The rowid an `AUTOINCREMENT` table gives to a new row: one more than the
largest rowid the table ever held (`seq`) or holds now (`ids`). -/
def nextRowid (seq : Int) (ids : List Int) : Int :=
  max seq (ids.foldr max 0) + 1

/-! ## Responses -/

/-- A line of `GET /api/admin/orders`: an order item joined with its product. -/
structure OrderLine where
  order_id : Int
  quantity : Int
  price_cents : Int
  name : String
deriving DecidableEq, Repr

/-- The JSON body of a response. -/
inductive Body where
  | error (message : String)
  | order (order_id : Int) (total_cents : Int)
  | login (token : String) (id : Int) (email : String)
  | products (rows : List Product)
  | created (id : Int)
  | status (value : String)
  | orders (rows : List (Order × List OrderLine))
  | uncaught
deriving DecidableEq, Repr

structure Response where
  status : Nat
  body : Body
deriving DecidableEq, Repr

/-! ## `POST /api/orders` -/

/-- An element of the `items` array.  `null` is the JSON null (reading a
property of it throws); for any other value the two fields are
`Number(item.productId)` and `Number(item.quantity)`. -/
inductive JsItem where
  | null
  | obj (productId : JsNum) (quantity : JsNum)
deriving DecidableEq, Repr

structure OrderBody where
  name : Option String
  email : Option String
  items : Option (List JsItem)
deriving DecidableEq, Repr

/-- An entry of `normalizedItems`. -/
structure NormalizedItem where
  productId : Int
  quantity : Int
  price_cents : Int
deriving DecidableEq, Repr

/-- The statement `SELECT id, price_cents, stock FROM products WHERE id = ?`,
run with `.get`. -/
def getProduct (s : Store) (productId : Int) : Option Product :=
  s.products.find? (fun p => decide (p.id = productId))

/-- The statement
`UPDATE products SET stock = stock - ? WHERE id = ? AND stock >= ?`:
the number of rows changed and the store afterwards. -/
def updateStock (s : Store) (quantity productId : Int) : Nat × Store :=
  ((s.products.filter (fun p => decide (p.id = productId) && p.stock.ge quantity)).length,
   { s with products := s.products.map (fun p =>
       if p.id = productId ∧ p.stock.ge quantity = true
       then { p with stock := p.stock.sub quantity } else p) })

/-- The statement `INSERT INTO orders (...)`: `lastInsertRowid` and the store
afterwards. -/
def insertOrder (s : Store) (name email : String) (total : Int) (status : String)
    (now : Int) : Int × Store :=
  let id := nextRowid s.seq_orders (s.orders.map Order.id)
  (id, { s with orders := s.orders ++ [⟨id, name, email, total, status, now⟩],
                seq_orders := id })

/-- The statement `INSERT INTO order_items (...)`. -/
def insertItem (s : Store) (orderId productId quantity price_cents : Int) : Store :=
  let id := nextRowid s.seq_order_items (s.order_items.map OrderItem.id)
  { s with order_items := s.order_items ++ [⟨id, orderId, productId, quantity, price_cents⟩],
           seq_order_items := id }

/-- The loop `items.forEach(...)` of `createOrder`, from the items still to
process, the store, `total` and `normalizedItems` so far.  A `throw` ends the
loop with the message of the error and the store as written up to there. -/
def forEachItem : List JsItem → Store → Int → List NormalizedItem →
    Except String (Int × List NormalizedItem) × Store
  | [], s, total, normalizedItems => (.ok (total, normalizedItems), s)
  | .null :: _, s, _, _ =>
      (.error "Cannot read properties of null (reading 'productId')", s)
  | .obj (.int productId) (.int quantity) :: rest, s, total, normalizedItems =>
      if quantity ≤ 0 then (.error "Invalid item payload.", s)
      else
        match getProduct s productId with
        | none => (.error "Product not found.", s)
        | some product =>
          let update := updateStock s quantity productId
          if update.1 = 0 then
            (.error "Insufficient stock for one of the items.", update.2)
          else
            forEachItem rest update.2
              (toDouble (total + toDouble (product.price_cents * quantity)))
              (normalizedItems ++ [⟨productId, quantity, product.price_cents⟩])
  | .obj _ _ :: _, s, _, _ => (.error "Invalid item payload.", s)

/-- The loop `normalizedItems.forEach(insertItem.run ...)`. -/
def insertItems (s : Store) (orderId : Int) : List NormalizedItem → Store
  | [] => s
  | item :: rest =>
      insertItems (insertItem s orderId item.productId item.quantity item.price_cents)
        orderId rest

/-- The function passed to `db.transaction` in the order handler: the result or
the thrown message, and the store as this function left it. -/
def createOrderBody (name email : String) (items : List JsItem) (now : Int)
    (s : Store) : Except String (Int × Int) × Store :=
  match forEachItem items s 0 [] with
  | (.error e, s1) => (.error e, s1)
  | (.ok (total, normalizedItems), s1) =>
      let orderResult := insertOrder s1 name email total "placed" now
      let orderId := orderResult.1
      (.ok (orderId, total), insertItems orderResult.2 orderId normalizedItems)

/-- The call `db.transaction(f)()`: commit when `f` returns, roll back to the store at
`BEGIN` and rethrow when `f` throws. -/
def transaction {α : Type} (f : Store → Except String α × Store) (s : Store) :
    Except String α × Store :=
  match f s with
  | (.ok a, s1) => (.ok a, s1)
  | (.error e, _) => (.error e, s)

/-- The handler of `POST /api/orders`; `now` is the clock reading of the
request. -/
def placeOrder (s : Store) (body : OrderBody) (now : Int) : Response × Store :=
  match body.name, body.email, body.items with
  | some name, some email, some items =>
      if name = "" ∨ email = "" ∨ items.length = 0 then
        (⟨400, .error "Invalid order payload."⟩, s)
      else
        match transaction (createOrderBody name email items now) s with
        | (.ok result, s1) => (⟨200, .order result.1 result.2⟩, s1)
        | (.error message, s1) => (⟨400, .error message⟩, s1)
  | _, _, _ => (⟨400, .error "Invalid order payload."⟩, s)

/-! ## Session authority: `requireAdmin` and `POST /api/admin/login` -/

deriving instance DecidableEq for Except

/-- The value of `req.admin`. -/
structure Admin where
  id : Int
  email : String
deriving DecidableEq, Repr

/-- Lines 19-20 of `requireAdmin`: the token of an `Authorization` header
(`none` is the JavaScript `null`). -/
def bearerToken (authorization : Option String) : Option String :=
  let header := authorization.getD ""
  if "Bearer ".toList.isPrefixOf header.toList then some (header.drop 7) else none

/-- The rows of
`SELECT ... FROM admin_sessions s JOIN users u ON u.id = s.user_id
 WHERE s.token = ? AND s.expires_at > ?`. -/
def sessionRows (s : Store) (token : String) (now : Int) : List (AdminSession × User) :=
  (s.admin_sessions.filter (fun x => decide (x.token = token) && decide (x.expires_at > now))).flatMap
    (fun x => (s.users.filter (fun u => decide (u.id = x.user_id))).map (fun u => (x, u)))

/-- Lines 21-34 of `requireAdmin`, from the extracted token: the 401 response
it sends, or the admin it hands to the next handler. -/
def authorize (s : Store) (token : Option String) (now : Int) : Except Response Admin :=
  match token with
  | none => .error ⟨401, .error "Missing token."⟩
  | some t =>
      if t = "" then .error ⟨401, .error "Missing token."⟩
      else
        match (sessionRows s t now).head? with
        | none => .error ⟨401, .error "Unauthorized."⟩
        | some session => .ok ⟨session.1.user_id, session.2.email⟩

/-- The middleware `requireAdmin`; `now` is its clock reading. -/
def requireAdmin (s : Store) (authorization : Option String) (now : Int) :
    Except Response Admin :=
  authorize s (bearerToken authorization) now

structure LoginBody where
  email : Option String
  password : Option String
deriving DecidableEq, Repr

/-- The session lifetime `7 * 24 * 60 * 60 * 1000` milliseconds. -/
def sessionLifetime : Int := 7 * 24 * 60 * 60 * 1000

/-- The handler of `POST /api/admin/login`.  `compareSync` is
`bcrypt.compareSync`, `token` the value of
`crypto.randomBytes(24).toString('hex')`, `now` the reading of `Date.now()` and
`createdAt` the later reading of `new Date()`.  `token` is the primary key of
`admin_sessions`: inserting a token the table holds throws, which Express
answers with status 500. -/
def login (compareSync : String → String → Bool) (s : Store) (body : LoginBody)
    (token : String) (now createdAt : Int) : Response × Store :=
  match body.email, body.password with
  | some email, some password =>
      if email = "" ∨ password = "" then
        (⟨400, .error "Email and password required."⟩, s)
      else
        match s.users.find? (fun u => decide (u.email = email) && decide (u.role = "admin")) with
        | none => (⟨401, .error "Invalid credentials."⟩, s)
        | some user =>
            if compareSync password user.password_hash = false then
              (⟨401, .error "Invalid credentials."⟩, s)
            else
              let expiresAt := now + sessionLifetime
              if token ∈ s.admin_sessions.map AdminSession.token then
                (⟨500, .uncaught⟩, s)
              else
                (⟨200, .login token user.id user.email⟩,
                 { s with admin_sessions :=
                     s.admin_sessions ++ [⟨token, user.id, expiresAt, createdAt⟩] })
  | _, _ => (⟨400, .error "Email and password required."⟩, s)

/-! ## Admin routes -/

/-- The statement `SELECT * FROM products ORDER BY created_at DESC`. -/
def listProducts (s : Store) : List Product :=
  s.products.insertionSort (fun a b => a.created_at ≥ b.created_at)

structure ProductBody where
  name : Option String
  description : Option String
  price : JsNum
  stock : JsNum
  image_url : Option String
  category : Option String
deriving DecidableEq, Repr

/-- The handler of `POST /api/admin/products` (after `requireAdmin`).  `price`
and `stock` of the body are `Number(price)` and `Number(stock)`. -/
def createProduct (s : Store) (body : ProductBody) (now : Int) : Response × Store :=
  if truthy body.name = false ∨ truthy body.description = false ∨
      truthy body.image_url = false ∨ truthy body.category = false then
    (⟨400, .error "Missing product fields."⟩, s)
  else if body.price.isFinite = false ∨ body.stock.isFinite = false ∨
      body.stock.ltZero = true ∨ body.price.ltZero = true then
    (⟨400, .error "Invalid price or stock."⟩, s)
  else
    let priceCents := body.price.round100
    let id := nextRowid s.seq_products (s.products.map Product.id)
    (⟨200, .created id⟩,
     { s with products := s.products ++
                [⟨id, body.name.getD "", body.description.getD "", priceCents,
                  body.image_url.getD "", body.stock.toSql, body.category.getD "", now⟩],
              seq_products := id })

/-- The body of `PUT /api/admin/products/:id`: a string field is `none` when
it is missing; `price` and `stock` are `none` when they are `undefined` and
`Number(value)` otherwise. -/
structure UpdateBody where
  name : Option String
  description : Option String
  image_url : Option String
  category : Option String
  price : Option JsNum
  stock : Option JsNum
deriving DecidableEq, Repr

/-- One `column = ?` of the `SET` clause, with the value bound to it. -/
inductive Assignment where
  | name (v : String)
  | description (v : String)
  | image_url (v : String)
  | category (v : String)
  | price_cents (v : Int)
  | stock (v : SqlNum)
deriving DecidableEq, Repr

def Assignment.apply (p : Product) : Assignment → Product
  | .name v => { p with name := v }
  | .description v => { p with description := v }
  | .image_url v => { p with image_url := v }
  | .category v => { p with category := v }
  | .price_cents v => { p with price_cents := v }
  | .stock v => { p with stock := v }

/-- The assignment a truthy string field pushes onto `updates`. -/
def pushText (field : Option String) (mk : String → Assignment) : List Assignment :=
  match field with
  | some v => if v = "" then [] else [mk v]
  | none => []

/-- Lines 190-197 of the update handler: a supplied price is checked and
pushed onto `updates` as `price_cents`. -/
def pushPrice (updates : List Assignment) (price : Option JsNum) :
    Except Response (List Assignment) :=
  match price with
  | none => .ok updates
  | some priceNumber =>
      if priceNumber.isFinite = false ∨ priceNumber.ltZero = true then
        .error ⟨400, Body.error "Invalid price."⟩
      else .ok (updates ++ [Assignment.price_cents priceNumber.round100])

/-- Lines 198-205 of the update handler: a supplied stock is checked and
pushed onto `updates`. -/
def pushStock (updates : List Assignment) (stock : Option JsNum) :
    Except Response (List Assignment) :=
  match stock with
  | none => .ok updates
  | some stockNumber =>
      if stockNumber.isInteger = false ∨ stockNumber.ltZero = true then
        .error ⟨400, Body.error "Invalid stock."⟩
      else .ok (updates ++ [Assignment.stock stockNumber.toSql])

/-- Lines 171-205 of the update handler: the `updates` it collects, or the 400
response of a rejected price or stock. -/
def collectUpdates (body : UpdateBody) : Except Response (List Assignment) :=
  match pushPrice
      (pushText body.name Assignment.name ++
       pushText body.description Assignment.description ++
       pushText body.image_url Assignment.image_url ++
       pushText body.category Assignment.category) body.price with
  | .error r => .error r
  | .ok updates => pushStock updates body.stock

/-- The statement `UPDATE products SET ... WHERE id = ?`: `changes` and the
store afterwards. -/
def runUpdate (s : Store) (updates : List Assignment) (productId : Int) : Nat × Store :=
  ((s.products.filter (fun p => decide (p.id = productId))).length,
   { s with products := s.products.map (fun p =>
       if p.id = productId then updates.foldl Assignment.apply p else p) })

/-- The handler of `PUT /api/admin/products/:id` (after `requireAdmin`); `id`
is `Number(req.params.id)`. -/
def updateProduct (s : Store) (id : JsNum) (body : UpdateBody) : Response × Store :=
  match id with
  | .int productId =>
      match collectUpdates body with
      | .error r => (r, s)
      | .ok updates =>
          if updates.length = 0 then (⟨400, .error "No updates provided."⟩, s)
          else
            let result := runUpdate s updates productId
            if result.1 = 0 then (⟨404, .error "Product not found."⟩, result.2)
            else (⟨200, .status "ok"⟩, result.2)
  | _ => (⟨400, .error "Invalid product id."⟩, s)

/-- The handler of `DELETE /api/admin/products/:id` (after `requireAdmin`).
`order_items.product_id` references `products(id)`; `foreignKeys` tells whether
the connection enforces the reference, in which case deleting a product an
order item names throws. -/
def deleteProduct (foreignKeys : Bool) (s : Store) (id : JsNum) : Response × Store :=
  match id with
  | .int productId =>
      let changes := (s.products.filter (fun p => decide (p.id = productId))).length
      if changes = 0 then (⟨404, .error "Product not found."⟩, s)
      else if foreignKeys = true ∧
          (s.order_items.any (fun oi => decide (oi.product_id = productId))) = true then
        (⟨500, .uncaught⟩, s)
      else
        (⟨200, .status "deleted"⟩,
         { s with products := s.products.filter (fun p => !decide (p.id = productId)) })
  | _ => (⟨400, .error "Invalid product id."⟩, s)

/-- The handler of `GET /api/admin/orders` (after `requireAdmin`). -/
def listOrders (s : Store) : List (Order × List OrderLine) :=
  let orders := (s.orders.insertionSort (fun a b => a.created_at ≥ b.created_at)).take 50
  if orders.length = 0 then []
  else
    let orderIds := orders.map Order.id
    let items : List OrderLine :=
      (s.order_items.filter (fun oi => decide (oi.order_id ∈ orderIds))).flatMap
        (fun oi => (s.products.filter (fun p => decide (p.id = oi.product_id))).map
          (fun p => ⟨oi.order_id, oi.quantity, oi.price_cents, p.name⟩))
    orders.map (fun order => (order, items.filter (fun item => decide (item.order_id = order.id))))

/-- A request to one of the routes registered with `requireAdmin`. -/
inductive AdminRequest where
  | listProducts
  | createProduct (body : ProductBody)
  | updateProduct (id : JsNum) (body : UpdateBody)
  | deleteProduct (id : JsNum)
  | listOrders
deriving DecidableEq, Repr

/-- The handler behind `requireAdmin` for each admin route; `now` is the clock
reading the handler takes. -/
def adminHandler (foreignKeys : Bool) (s : Store) (now : Int) :
    AdminRequest → Response × Store
  | .listProducts => (⟨200, .products (listProducts s)⟩, s)
  | .createProduct body => createProduct s body now
  | .updateProduct id body => updateProduct s id body
  | .deleteProduct id => deleteProduct foreignKeys s id
  | .listOrders => (⟨200, .orders (listOrders s)⟩, s)

/-- An admin route: `requireAdmin` answers itself, or calls `next()` and the
handler answers.  `authNow` is the clock reading of `requireAdmin`. -/
def adminRoute (foreignKeys : Bool) (s : Store) (authorization : Option String)
    (authNow now : Int) (request : AdminRequest) : Response × Store :=
  match requireAdmin s authorization authNow with
  | .error response => (response, s)
  | .ok _ => adminHandler foreignKeys s now request

/-! ## Vocabulary of the properties -/

/-- A line item as the order handler accepts it: an integer product id and a
strictly positive integer quantity. -/
def JsItem.valid : JsItem → Bool
  | .obj (.int _) (.int q) => decide (0 < q)
  | _ => false

/-- The quantity a line item asks of product `pid`. -/
def JsItem.quantityOf (pid : Int) : JsItem → Int
  | .obj (.int p) (.int q) => if p = pid then q else 0
  | _ => 0

/-- The summed quantity the line items ask of product `pid`. -/
def requested (items : List JsItem) (pid : Int) : Int :=
  (items.map (JsItem.quantityOf pid)).sum

/-- The unit price the store holds for product `pid`. -/
def priceOf (s : Store) (pid : Int) : Int :=
  match getProduct s pid with
  | some p => p.price_cents
  | none => 0

/-- Unit price times quantity of a line item, at the prices of store `s`. -/
def lineCost (s : Store) : JsItem → Int
  | .obj (.int p) (.int q) => priceOf s p * q
  | _ => 0

/-- The total the item loop accumulates over the line items, from `total`, in
the double arithmetic of `total += product.price_cents * quantity`. -/
def accumulated (s : Store) (total : Int) : List JsItem → Int
  | [] => total
  | .obj (.int p) (.int q) :: rest =>
      accumulated s (toDouble (total + toDouble (priceOf s p * q))) rest
  | _ :: rest => accumulated s total rest

/-- The sum over the line items of unit price times quantity. -/
def orderTotal (s : Store) (items : List JsItem) : Int :=
  (items.map (lineCost s)).sum

/-- The line item with the unit price of store `s` captured. -/
def normalize (s : Store) : JsItem → Option NormalizedItem
  | .obj (.int p) (.int q) => some ⟨p, q, priceOf s p⟩
  | _ => none

/-- A product after the line items have been taken from its stock. -/
def decrement (items : List JsItem) (p : Product) : Product :=
  { p with stock := p.stock.minus (requested items p.id) }

/-- The store after the line items have been taken from the stocks. -/
def decrementAll (s : Store) (items : List JsItem) : Store :=
  { s with products := s.products.map (decrement items) }

/-- The primary key of `products`: no two rows share an id. -/
def UniqueProductIds (s : Store) : Prop := (s.products.map Product.id).Nodup

instance (s : Store) : Decidable (UniqueProductIds s) :=
  inferInstanceAs (Decidable (s.products.map Product.id).Nodup)

/-- Every stock is at most `Number.MAX_SAFE_INTEGER`, the range in which the
subtraction of a quantity from a stock is exact. -/
def StocksInRange (s : Store) : Prop := ∀ p ∈ s.products, p.stock.floor ≤ maxSafe

instance (s : Store) : Decidable (StocksInRange s) :=
  inferInstanceAs (Decidable (∀ p ∈ s.products, p.stock.floor ≤ maxSafe))

/-- A line item for `quantity` of product `pid` can be fulfilled after the
`earlier` items of the same call: the product exists and its stock, less what
the earlier items took of it, covers the quantity. -/
def Fulfillable (s : Store) (earlier : List JsItem) (pid quantity : Int) : Prop :=
  ∃ p ∈ s.products, p.id = pid ∧ quantity ≤ p.stock.floor - requested earlier pid

/-- Every line item can be fulfilled after the items before it. -/
def AllFulfillable (s : Store) (items : List JsItem) : Prop :=
  ∀ earlier pid quantity later,
    items = earlier ++ JsItem.obj (.int pid) (.int quantity) :: later →
    Fulfillable s earlier pid quantity

/-- The store after a sequence of order requests, each run to its end before
the next begins. -/
def runOrders (s : Store) : List (OrderBody × Int) → Store
  | [] => s
  | call :: rest => runOrders (placeOrder s call.1 call.2).2 rest

/-- The quantity of product `pid` sold by the calls of a sequence that
succeeded. -/
def sold (pid : Int) (s : Store) : List (OrderBody × Int) → Int
  | [] => 0
  | call :: rest =>
      (if (placeOrder s call.1 call.2).1.status = 200
        then requested (call.1.items.getD []) pid else 0)
      + sold pid (placeOrder s call.1 call.2).2 rest

/-- The store after exactly `quantity` has been taken from the stock of
product `pid`. -/
def take (s : Store) (pid quantity : Int) : Store :=
  { s with products := s.products.map (fun r =>
      if r.id = pid then { r with stock := r.stock.minus quantity } else r) }

/-- Every product a line item names exists, and the summed quantity the items
ask of it is at most its stock. -/
def Covered (s : Store) (items : List JsItem) : Prop :=
  ∀ pid quantity, JsItem.obj (.int pid) (.int quantity) ∈ items →
    ∃ p ∈ s.products, p.id = pid ∧ requested items pid ≤ p.stock.floor

/-- A product after an update request: a truthy text field, a supplied price
and a supplied stock replace the stored value; everything else is kept. -/
def patched (body : UpdateBody) (p : Product) : Product :=
  { id := p.id,
    name := if truthy body.name = true then body.name.getD "" else p.name,
    description := if truthy body.description = true then body.description.getD ""
      else p.description,
    price_cents := match body.price with
      | some priceNumber => priceNumber.round100
      | none => p.price_cents,
    image_url := if truthy body.image_url = true then body.image_url.getD "" else p.image_url,
    stock := match body.stock with
      | some stockNumber => stockNumber.toSql
      | none => p.stock,
    category := if truthy body.category = true then body.category.getD "" else p.category,
    created_at := p.created_at }

/-- The keys of the session tables: `token` is the primary key of
`admin_sessions`, `id` the primary key of `users`, and `user_id` references
`users(id)`. -/
def SessionKeys (s : Store) : Prop :=
  (s.admin_sessions.map AdminSession.token).Nodup ∧
  (s.users.map User.id).Nodup ∧
  ∀ x ∈ s.admin_sessions, ∃ u ∈ s.users, u.id = x.user_id

instance (s : Store) : Decidable (SessionKeys s) :=
  inferInstanceAs (Decidable (_ ∧ _ ∧ _))

/-! ## A small shop, for the worked cases -/

def demoAdmin : User := ⟨1, "admin@example.com", "hash-of-admin123", "admin", 0⟩

def demoP1 : Product := ⟨1, "Aurora Hoodie", "Soft hoodie", 1000, "img/1", ⟨5, true⟩, "Apparel", 10⟩

def demoP2 : Product := ⟨2, "Glass Lantern", "Lantern", 250, "img/2", ⟨3, true⟩, "Home", 20⟩

def demoP3 : Product := ⟨3, "Focus Notebook", "Notebook", 40, "img/3", ⟨10, true⟩, "Stationery", 30⟩

/-- Three products, one admin and one session that expires at time 1000. -/
def demoStore : Store :=
  { users := [demoAdmin], products := [demoP1, demoP2, demoP3], orders := [],
    order_items := [], admin_sessions := [⟨"c0ffee", 1, 1000, 0⟩],
    seq_products := 3, seq_orders := 0, seq_order_items := 0 }

/-- An order body for Ann with the given `(productId, quantity)` pairs. -/
def demoOrder (lines : List (Int × Int)) : OrderBody :=
  ⟨some "Ann", some "ann@example.com",
   some (lines.map (fun l => JsItem.obj (.int l.1) (.int l.2)))⟩

/-- The password check of the worked cases: the stored hash is the password
behind a fixed tag. -/
def demoCompare (password hash : String) : Bool := decide ("hash-of-" ++ password = hash)

/-! ## Vocabulary of the failure properties -/

/-- Whether a request carries a token for `requireAdmin` to look up: a `Bearer`
header with a non-empty token. -/
def tokenPresent (authorization : Option String) : Bool :=
  match bearerToken authorization with
  | some t => decide (t ≠ "")
  | none => false

/-- Whether an update body makes the handler push at least one assignment: a
non-empty text field, or a price or stock that is not `undefined`. -/
def suppliesField (body : UpdateBody) : Bool :=
  truthy body.name || truthy body.description || truthy body.image_url ||
    truthy body.category || body.price.isSome || body.stock.isSome

/-- A product with a stock of `1e21` and a unit price of 900719925474001
cents, both values a create request can set. -/
def demoP4 : Product :=
  ⟨4, "Bulk Grain", "Grain", 900719925474001, "img/4", ⟨1000000000000000000000, true⟩,
   "Bulk", 40⟩

/-- The demo shop with the bulk product added. -/
def bulkStore : Store :=
  { demoStore with products := [demoP1, demoP2, demoP3, demoP4], seq_products := 4 }

/-- The demo shop with no product on its shelves. -/
def bareStore : Store := { demoStore with products := [] }

/-- A create request for a mug with the given `Number(price)` and
`Number(stock)`. -/
def mugBody (price stock : JsNum) : ProductBody :=
  ⟨some "Studio Mug", some "A mug", price, stock, some "img/4", some "Kitchen"⟩

end PulseShop
namespace PulseShop

/-! ## Rows and keys -/

theorem find_unique (l : List Product) (h : (l.map Product.id).Nodup) (p : Product)
    (hp : p ∈ l) : l.find? (fun r => decide (r.id = p.id)) = some p := by
  induction l with
  | nil => cases hp
  | cons a l ih =>
    rw [List.map_cons, List.nodup_cons] at h
    rw [List.find?_cons]
    by_cases ha : a.id = p.id
    · simp only [ha, decide_True]
      rcases List.mem_cons.1 hp with rfl | hp'
      · rfl
      · exact absurd (ha ▸ List.mem_map_of_mem Product.id hp') h.1
    · simp only [ha, decide_False]
      rcases List.mem_cons.1 hp with rfl | hp'
      · exact absurd rfl ha
      · exact ih h.2 hp'

theorem getProduct_some {s : Store} {pid : Int} {p : Product} (h : getProduct s pid = some p) :
    p ∈ s.products ∧ p.id = pid := by
  unfold getProduct at h
  exact ⟨List.mem_of_find?_eq_some h, by simpa using List.find?_some h⟩

theorem getProduct_none {s : Store} {pid : Int} (h : getProduct s pid = none) :
    ∀ p ∈ s.products, p.id ≠ pid := by
  unfold getProduct at h
  intro p hp
  have := List.find?_eq_none.1 h p hp
  simpa using this

theorem getProduct_of_mem {s : Store} (hu : UniqueProductIds s) {p : Product}
    (hp : p ∈ s.products) : getProduct s p.id = some p :=
  find_unique s.products hu p hp

theorem same_row {s : Store} (hu : UniqueProductIds s) {p r : Product}
    (hp : p ∈ s.products) (hr : r ∈ s.products) (h : r.id = p.id) : r = p := by
  have h1 := getProduct_of_mem hu hp
  have h2 := getProduct_of_mem hu hr
  rw [h] at h2
  exact Option.some.inj (h2.symm.trans h1)

/-! ## Double arithmetic in the exact range -/

theorem toDouble_exact {z : Int} (h0 : 0 ≤ z) (h1 : z ≤ maxSafe) : toDouble z = z := by
  obtain ⟨n, rfl⟩ := Int.eq_ofNat_of_zero_le h0
  have hn : n < 9007199254740992 := by
    simp only [maxSafe] at h1
    omega
  have hu : ulpFrom 1024 n 1 = 1 := by
    show (if n < 9007199254740992 * 1 then 1 else ulpFrom 1023 n (2 * 1)) = 1
    rw [if_pos (by omega)]
  show ((roundNat n : Nat) : Int) = (n : Int)
  have : roundNat n = n := by
    simp only [roundNat, hu, Nat.mod_one, Nat.div_one, Nat.mul_one, Nat.mul_zero]
    rw [if_pos (by omega)]
  rw [this]

theorem sub_exact {x : SqlNum} {q : Int} (hq : 0 < q) (hle : q ≤ x.floor)
    (hr : x.floor ≤ maxSafe) : x.sub q = x.minus q := by
  obtain ⟨f, i⟩ := x
  cases i with
  | false => rfl
  | true =>
    simp only [SqlNum.sub, SqlNum.minus, if_true] at hle hr ⊢
    rw [toDouble_exact (by omega) hr, toDouble_exact (by omega) (by omega)]

/-! ## The conditional decrement -/

theorem updateStock_hit {s : Store} (hu : UniqueProductIds s) {pid q : Int} {p : Product}
    (hg : getProduct s pid = some p) (hq0 : 0 < q) (hq : q ≤ p.stock.floor)
    (hr : p.stock.floor ≤ maxSafe) :
    (updateStock s q pid).1 ≠ 0 ∧ (updateStock s q pid).2 = take s pid q := by
  have hr' := hr
  obtain ⟨hp, hid⟩ := getProduct_some hg
  constructor
  · have hmem : p ∈ s.products.filter
        (fun r => decide (r.id = pid) && r.stock.ge q) := by
      rw [List.mem_filter]
      exact ⟨hp, by simp [hid, SqlNum.ge, hq]⟩
    intro h0
    have := List.eq_nil_of_length_eq_zero h0
    simp only [updateStock] at this
    rw [this] at hmem
    cases hmem
  · simp only [updateStock, take]
    congr 1
    apply List.map_congr_left
    intro r hr
    by_cases hrid : r.id = pid
    · have : r = p := same_row hu hp hr (hrid.trans hid.symm)
      subst this
      simp [hrid, SqlNum.ge, hq, sub_exact hq0 hq hr']
    · simp [hrid]

theorem updateStock_miss {s : Store} (hu : UniqueProductIds s) {pid q : Int} {p : Product}
    (hg : getProduct s pid = some p) (hq : p.stock.floor < q) :
    (updateStock s q pid).1 = 0 ∧ (updateStock s q pid).2 = s := by
  obtain ⟨hp, hid⟩ := getProduct_some hg
  have hno : ∀ r ∈ s.products, ¬ (r.id = pid ∧ r.stock.ge q = true) := by
    intro r hr ⟨hrid, hge⟩
    have : r = p := same_row hu hp hr (hrid.trans hid.symm)
    subst this
    simp only [SqlNum.ge, decide_eq_true_eq] at hge
    omega
  constructor
  · simp only [updateStock, List.length_eq_zero, List.filter_eq_nil_iff]
    intro r hr
    simpa using hno r hr
  · have hmap : s.products.map (fun r =>
        if r.id = pid ∧ r.stock.ge q = true
        then { r with stock := r.stock.sub q } else r) = s.products := by
      conv_rhs => rw [← List.map_id s.products]
      apply List.map_congr_left
      intro r hr
      simp [hno r hr]
    simp only [updateStock, hmap]

/-! ## One turn of the item loop -/

theorem forEachItem_missing {s : Store} {pid q : Int} (hq : 0 < q)
    (hg : getProduct s pid = none) (rest : List JsItem) (total : Int)
    (acc : List NormalizedItem) :
    forEachItem (.obj (.int pid) (.int q) :: rest) s total acc
      = (.error "Product not found.", s) := by
  rw [forEachItem, if_neg (by omega)]
  simp only [hg]

theorem forEachItem_short {s : Store} (hu : UniqueProductIds s) {pid q : Int} {p : Product}
    (hq : 0 < q) (hg : getProduct s pid = some p) (hlt : p.stock.floor < q)
    (rest : List JsItem) (total : Int) (acc : List NormalizedItem) :
    forEachItem (.obj (.int pid) (.int q) :: rest) s total acc
      = (.error "Insufficient stock for one of the items.", s) := by
  obtain ⟨h1, h2⟩ := updateStock_miss hu hg hlt
  rw [forEachItem, if_neg (by omega)]
  simp only [hg, h1, h2, if_true]

theorem forEachItem_taken {s : Store} (hu : UniqueProductIds s) {pid q : Int} {p : Product}
    (hq : 0 < q) (hg : getProduct s pid = some p) (hle : q ≤ p.stock.floor)
    (hr : p.stock.floor ≤ maxSafe)
    (rest : List JsItem) (total : Int) (acc : List NormalizedItem) :
    forEachItem (.obj (.int pid) (.int q) :: rest) s total acc
      = forEachItem rest (take s pid q) (toDouble (total + toDouble (p.price_cents * q)))
          (acc ++ [⟨pid, q, p.price_cents⟩]) := by
  obtain ⟨h1, h2⟩ := updateStock_hit hu hg hq hle hr
  rw [forEachItem, if_neg (by omega)]
  simp only [hg, h1, h2, if_false]

/-- A successful loop only saw valid items. -/
theorem forEachItem_invalid {item : JsItem} (hv : item.valid = false) (rest : List JsItem)
    (s : Store) (total : Int) (acc : List NormalizedItem) :
    ∃ e, forEachItem (item :: rest) s total acc = (.error e, s) := by
  cases item with
  | null => exact ⟨_, by rw [forEachItem]⟩
  | obj a b =>
    refine ⟨"Invalid item payload.", ?_⟩
    cases a <;> cases b <;> simp_all [forEachItem, JsItem.valid]

/-! ## The store after a decrement -/

theorem take_ids (s : Store) (pid q : Int) :
    (take s pid q).products.map Product.id = s.products.map Product.id := by
  simp only [take, List.map_map]
  apply List.map_congr_left
  intro r _
  simp only [Function.comp]
  split <;> rfl

theorem take_unique {s : Store} (hu : UniqueProductIds s) (pid q : Int) :
    UniqueProductIds (take s pid q) := by
  unfold UniqueProductIds
  rw [take_ids]
  exact hu

theorem getProduct_take (s : Store) (pid q pid2 : Int) :
    getProduct (take s pid q) pid2 = (getProduct s pid2).map (fun r =>
      if r.id = pid then { r with stock := r.stock.minus q } else r) := by
  simp only [getProduct, take, List.find?_map]
  have : ((fun p : Product => decide (p.id = pid2)) ∘ fun r =>
      if r.id = pid then { r with stock := r.stock.minus q } else r)
      = fun p => decide (p.id = pid2) := by
    funext r
    simp only [Function.comp]
    split <;> rfl
  rw [this]

theorem priceOf_take (s : Store) (pid q pid2 : Int) :
    priceOf (take s pid q) pid2 = priceOf s pid2 := by
  simp only [priceOf, getProduct_take]
  cases getProduct s pid2 with
  | none => rfl
  | some r =>
    simp only [Option.map_some']
    split <;> rfl

theorem requested_cons (item : JsItem) (rest : List JsItem) (pid : Int) :
    requested (item :: rest) pid = item.quantityOf pid + requested rest pid := by
  simp [requested]

theorem requested_append (a b : List JsItem) (pid : Int) :
    requested (a ++ b) pid = requested a pid + requested b pid := by
  simp [requested]

theorem decrementAll_take (s : Store) (pid q : Int) (rest : List JsItem) :
    decrementAll (take s pid q) rest
      = decrementAll s (.obj (.int pid) (.int q) :: rest) := by
  simp only [decrementAll, take, List.map_map]
  congr 1
  apply List.map_congr_left
  intro r _
  simp only [Function.comp, decrement, requested_cons, JsItem.quantityOf]
  by_cases h : r.id = pid
  · simp only [h, if_true, SqlNum.minus]
    congr 2
    omega
  · have h2 : ¬ pid = r.id := fun e => h e.symm
    simp only [h, h2, if_false, zero_add]

theorem decrementAll_nil (s : Store) : decrementAll s [] = s := by
  have : s.products.map (decrement []) = s.products := by
    conv_rhs => rw [← List.map_id s.products]
    apply List.map_congr_left
    intro r _
    simp [decrement, requested, SqlNum.minus]
  simp only [decrementAll, this]

/-! ## Fulfillable items -/

theorem fulfillable_take (s : Store) (pid0 q0 : Int) (earlier : List JsItem) (pid q : Int) :
    Fulfillable (take s pid0 q0) earlier pid q
      ↔ Fulfillable s (.obj (.int pid0) (.int q0) :: earlier) pid q := by
  unfold Fulfillable
  simp only [requested_cons, JsItem.quantityOf]
  constructor
  · rintro ⟨p, hp, hid, hle⟩
    simp only [take, List.mem_map] at hp
    obtain ⟨r, hr, rfl⟩ := hp
    by_cases h : r.id = pid0
    · simp only [h, if_true, SqlNum.minus] at hid hle
      refine ⟨r, hr, h.trans hid, ?_⟩
      simp only [hid, if_true]
      omega
    · simp only [h, if_false] at hid hle
      refine ⟨r, hr, hid, ?_⟩
      have h2 : ¬ pid0 = pid := fun e => h (hid.trans e.symm)
      simp only [h2, if_false]
      omega
  · rintro ⟨r, hr, hid, hle⟩
    refine ⟨_, List.mem_map_of_mem _ hr, ?_, ?_⟩
    · show (if r.id = pid0 then _ else r).id = pid
      split <;> exact hid
    · show q ≤ (if r.id = pid0 then _ else r).stock.floor - requested earlier pid
      by_cases h : r.id = pid0
      · have h2 : pid0 = pid := h.symm.trans hid
        simp only [h, h2, if_true, SqlNum.minus] at hle ⊢
        omega
      · have h2 : ¬ pid0 = pid := fun e => h (hid.trans e.symm)
        simp only [h, h2, if_false] at hle ⊢
        omega

theorem allFulfillable_nil (s : Store) : AllFulfillable s [] := by
  intro earlier pid q later h
  cases earlier <;> cases h

theorem allFulfillable_cons (s : Store) (pid q : Int) (rest : List JsItem) :
    AllFulfillable s (.obj (.int pid) (.int q) :: rest)
      ↔ Fulfillable s [] pid q ∧ AllFulfillable (take s pid q) rest := by
  constructor
  · intro h
    refine ⟨h [] pid q rest rfl, ?_⟩
    intro earlier pid2 q2 later hrest
    rw [fulfillable_take]
    exact h (_ :: earlier) pid2 q2 later (by rw [hrest]; rfl)
  · rintro ⟨h0, hrest⟩ earlier pid2 q2 later heq
    cases earlier with
    | nil =>
      simp only [List.nil_append, List.cons.injEq, JsItem.obj.injEq, JsNum.int.injEq] at heq
      obtain ⟨⟨rfl, rfl⟩, _⟩ := heq
      exact h0
    | cons e earlier =>
      simp only [List.cons_append, List.cons.injEq] at heq
      obtain ⟨rfl, heq⟩ := heq
      rw [← fulfillable_take]
      exact hrest earlier pid2 q2 later heq

theorem valid_shape {item : JsItem} (h : item.valid = true) :
    ∃ pid q, item = .obj (.int pid) (.int q) ∧ 0 < q := by
  cases item with
  | null => simp [JsItem.valid] at h
  | obj a b =>
    cases a <;> cases b <;> simp [JsItem.valid] at h
    exact ⟨_, _, rfl, h⟩

theorem orderTotal_take (s : Store) (pid q : Int) (items : List JsItem) :
    orderTotal (take s pid q) items = orderTotal s items := by
  have : lineCost (take s pid q) = lineCost s := by
    funext item
    cases item with
    | null => rfl
    | obj a b => cases a <;> cases b <;> simp [lineCost, priceOf_take]
  simp only [orderTotal, this]

theorem normalize_take (s : Store) (pid q : Int) :
    normalize (take s pid q) = normalize s := by
  funext item
  cases item with
  | null => rfl
  | obj a b => cases a <;> cases b <;> simp [normalize, priceOf_take]

theorem accumulated_take (s : Store) (pid q : Int) (items : List JsItem) :
    ∀ total, accumulated (take s pid q) total items = accumulated s total items := by
  induction items with
  | nil => intro total; rfl
  | cons head rest ih =>
    intro total
    cases head with
    | null => simp only [accumulated, ih]
    | obj a b => cases a <;> cases b <;> simp only [accumulated, ih, priceOf_take]

theorem take_range {s : Store} (hr : StocksInRange s) (pid : Int) {q : Int} (hq : 0 < q) :
    StocksInRange (take s pid q) := by
  intro p hp
  simp only [take, List.mem_map] at hp
  obtain ⟨r, hrm, rfl⟩ := hp
  have := hr r hrm
  split
  · simp only [SqlNum.minus]
    omega
  · exact this

/-- The loop over a prefix of valid, fulfillable items, with the stocks in the
exact range: it takes every item of the prefix from the stock and carries on
with the rest. -/
theorem forEachItem_prefix (pre rest : List JsItem) :
    ∀ (s : Store) (total : Int) (acc : List NormalizedItem), UniqueProductIds s →
      StocksInRange s →
      (∀ item ∈ pre, item.valid = true) → AllFulfillable s pre →
      forEachItem (pre ++ rest) s total acc
        = forEachItem rest (decrementAll s pre) (accumulated s total pre)
            (acc ++ pre.filterMap (normalize s)) := by
  induction pre with
  | nil =>
    intro s total acc _ _ _ _
    simp [decrementAll_nil, accumulated]
  | cons head pre ih =>
    intro s total acc hu hr hv hf
    obtain ⟨pid, q, rfl, hq⟩ := valid_shape (hv head (List.mem_cons_self _ _))
    rw [allFulfillable_cons] at hf
    obtain ⟨⟨p, hp, hid, hle⟩, hf⟩ := hf
    have hg : getProduct s pid = some p := hid ▸ getProduct_of_mem hu hp
    have hprice : priceOf s pid = p.price_cents := by simp only [priceOf, hg]
    simp only [requested, List.map_nil, List.sum_nil, sub_zero] at hle
    rw [List.cons_append, forEachItem_taken hu hq hg hle (hr p hp),
      ih (take s pid q) _ _ (take_unique hu pid q) (take_range hr pid hq)
        (fun item hi => hv item (List.mem_cons_of_mem _ hi)) hf,
      decrementAll_take, accumulated_take, normalize_take]
    simp only [accumulated, List.filterMap_cons, normalize, hprice, List.append_assoc,
      List.singleton_append]

/-- A loop that ran to its end, with the stocks in the exact range, only saw
valid items, each fulfillable after the ones before it. -/
theorem forEachItem_ok_inv (items : List JsItem) :
    ∀ (s : Store) (total : Int) (acc : List NormalizedItem)
      (r : Int × List NormalizedItem) (s1 : Store), UniqueProductIds s →
      StocksInRange s →
      forEachItem items s total acc = (.ok r, s1) →
      (∀ item ∈ items, item.valid = true) ∧ AllFulfillable s items := by
  induction items with
  | nil =>
    intro s total acc r s1 _ _ _
    exact ⟨fun _ hm => (List.not_mem_nil _ hm).elim, allFulfillable_nil s⟩
  | cons head rest ih =>
    intro s total acc r s1 hu hr h
    by_cases hv : head.valid = true
    · obtain ⟨pid, q, rfl, hq⟩ := valid_shape hv
      cases hg : getProduct s pid with
      | none =>
        rw [forEachItem_missing hq hg] at h
        cases h
      | some p =>
        obtain ⟨hp, hid⟩ := getProduct_some hg
        by_cases hle : q ≤ p.stock.floor
        · rw [forEachItem_taken hu hq hg hle (hr p hp)] at h
          obtain ⟨hvr, hfr⟩ := ih _ _ _ _ _ (take_unique hu pid q) (take_range hr pid hq) h
          refine ⟨?_, (allFulfillable_cons s pid q rest).2 ⟨⟨p, hp, hid, ?_⟩, hfr⟩⟩
          · intro item hi
            rcases List.mem_cons.1 hi with rfl | hi
            · exact hv
            · exact hvr item hi
          · simpa [requested] using hle
        · rw [forEachItem_short hu hq hg (by omega)] at h
          cases h
    · obtain ⟨e, he⟩ := forEachItem_invalid (by simpa using hv) rest s total acc
      rw [he] at h
      cases h

/-! ## The order handler as a whole -/

theorem insertItems_frame (orderId : Int) (n : List NormalizedItem) :
    ∀ s : Store, (insertItems s orderId n).products = s.products ∧
      (insertItems s orderId n).orders = s.orders ∧
      (insertItems s orderId n).users = s.users ∧
      (insertItems s orderId n).admin_sessions = s.admin_sessions ∧
      (insertItems s orderId n).seq_products = s.seq_products ∧
      (insertItems s orderId n).seq_orders = s.seq_orders := by
  induction n with
  | nil => intro s; exact ⟨rfl, rfl, rfl, rfl, rfl, rfl⟩
  | cons item rest ih =>
    intro s
    rw [insertItems]
    exact ih _

theorem insertItems_rows (orderId : Int) (n : List NormalizedItem) :
    ∀ s : Store, ∃ rows : List OrderItem,
      (insertItems s orderId n).order_items = s.order_items ++ rows ∧
      rows.map (fun r => (r.order_id, r.product_id, r.quantity, r.price_cents))
        = n.map (fun i => (orderId, i.productId, i.quantity, i.price_cents)) := by
  induction n with
  | nil => intro s; exact ⟨[], by simp [insertItems], rfl⟩
  | cons item rest ih =>
    intro s
    obtain ⟨rows, h1, h2⟩ := ih (insertItem s orderId item.productId item.quantity item.price_cents)
    refine ⟨⟨nextRowid s.seq_order_items (s.order_items.map OrderItem.id), orderId,
      item.productId, item.quantity, item.price_cents⟩ :: rows, ?_, ?_⟩
    · rw [insertItems, h1]
      simp only [insertItem, List.append_assoc, List.singleton_append]
    · simp only [List.map_cons, h2]

/-- The shape of a successful order on a store with unique ids and stocks in
the exact range: the body is well formed, every item is valid and fulfillable,
and the response and the store are the ones computed from the prices and stocks
of the store the call started from. -/
theorem placeOrder_ok {s : Store} {body : OrderBody} {now : Int} (hu : UniqueProductIds s)
    (hr : StocksInRange s) (h : (placeOrder s body now).1.status = 200) :
    ∃ name email items, body = ⟨some name, some email, some items⟩ ∧
      name ≠ "" ∧ email ≠ "" ∧ items ≠ [] ∧
      (∀ item ∈ items, item.valid = true) ∧ AllFulfillable s items ∧
      placeOrder s body now =
        (⟨200, .order (nextRowid s.seq_orders (s.orders.map Order.id))
            (accumulated s 0 items)⟩,
         insertItems
           (insertOrder (decrementAll s items) name email (accumulated s 0 items)
             "placed" now).2
           (nextRowid s.seq_orders (s.orders.map Order.id))
           (items.filterMap (normalize s))) := by
  obtain ⟨name, email, items⟩ := body
  cases name with
  | none => simp [placeOrder] at h
  | some name =>
  cases email with
  | none => simp [placeOrder] at h
  | some email =>
  cases items with
  | none => simp [placeOrder] at h
  | some items =>
  simp only [placeOrder] at h ⊢
  by_cases hbad : name = "" ∨ email = "" ∨ items.length = 0
  · rw [if_pos hbad] at h
    simp at h
  · rw [if_neg hbad] at h ⊢
    simp only [not_or] at hbad
    obtain ⟨hn, he, hi⟩ := hbad
    refine ⟨name, email, items, rfl, hn, he, ?_, ?_⟩
    · intro e
      exact hi (by rw [e]; rfl)
    · simp only [transaction, createOrderBody] at h ⊢
      cases hfe : forEachItem items s 0 [] with
      | mk r s1 =>
        cases r with
        | error e =>
          rw [hfe] at h
          simp at h
        | ok r =>
          obtain ⟨hv, hf⟩ := forEachItem_ok_inv items s 0 [] r s1 hu hr hfe
          have hp := forEachItem_prefix items [] s 0 [] hu hr hv hf
          rw [List.append_nil, hfe, forEachItem] at hp
          simp only [List.nil_append, Prod.mk.injEq, Except.ok.injEq] at hp
          obtain ⟨hr1, hs1⟩ := hp
          subst hr1
          subst hs1
          refine ⟨hv, hf, ?_⟩
          simp only [insertOrder, decrementAll]

/-! ## Fulfillable item by item, covered in total -/

theorem quantityOf_nonneg {item : JsItem} (h : item.valid = true) (pid : Int) :
    0 ≤ item.quantityOf pid := by
  obtain ⟨p, q, rfl, hq⟩ := valid_shape h
  simp only [JsItem.quantityOf]
  split <;> omega

theorem requested_nonneg (items : List JsItem) (h : ∀ item ∈ items, item.valid = true)
    (pid : Int) : 0 ≤ requested items pid := by
  induction items with
  | nil => simp [requested]
  | cons head rest ih =>
    rw [requested_cons]
    have h1 := quantityOf_nonneg (h head (List.mem_cons_self _ _)) pid
    have h2 := ih (fun item hi => h item (List.mem_cons_of_mem _ hi))
    omega

theorem requested_unnamed (items : List JsItem) (pid : Int)
    (h : ∀ q, JsItem.obj (.int pid) (.int q) ∉ items) : requested items pid = 0 := by
  induction items with
  | nil => simp [requested]
  | cons head rest ih =>
    rw [requested_cons, ih (fun q hq => h q (List.mem_cons_of_mem _ hq))]
    cases head with
    | null => rfl
    | obj a b =>
      cases a <;> cases b <;> try rfl
      rename_i p q
      simp only [JsItem.quantityOf, add_zero]
      split
      · rename_i hp
        subst hp
        exact absurd (List.mem_cons_self _ _) (h q)
      · rfl

theorem allFulfillable_iff_covered (items : List JsItem) :
    ∀ s : Store, UniqueProductIds s → (∀ item ∈ items, item.valid = true) →
      (AllFulfillable s items ↔ Covered s items) := by
  induction items with
  | nil =>
    intro s _ _
    exact ⟨fun _ _ _ h => (List.not_mem_nil _ h).elim, fun _ => allFulfillable_nil s⟩
  | cons head rest ih =>
    intro s hu hv
    obtain ⟨pid, q, rfl, hq⟩ := valid_shape (hv _ (List.mem_cons_self _ _))
    have hvr : ∀ item ∈ rest, item.valid = true :=
      fun item hi => hv item (List.mem_cons_of_mem _ hi)
    rw [allFulfillable_cons, ih (take s pid q) (take_unique hu pid q) hvr]
    constructor
    · rintro ⟨⟨p, hp, hid, hle⟩, hc⟩ pid2 q2 hmem
      simp only [requested, List.map_nil, List.sum_nil, sub_zero] at hle
      by_cases hpid : pid2 = pid
      · subst hpid
        refine ⟨p, hp, hid, ?_⟩
        simp only [requested_cons, JsItem.quantityOf, if_true]
        by_cases hnamed : ∃ q3, JsItem.obj (.int pid2) (.int q3) ∈ rest
        · obtain ⟨q3, h3⟩ := hnamed
          obtain ⟨p2, hp2, hid2, hle2⟩ := hc pid2 q3 h3
          simp only [take, List.mem_map] at hp2
          obtain ⟨r, hr, rfl⟩ := hp2
          have hrid : r.id = pid2 := by
            by_cases hh : r.id = pid2
            · exact hh
            · simp [hh] at hid2
          have : r = p := same_row hu hp hr (hrid.trans hid.symm)
          subst this
          simp only [hrid, if_true, SqlNum.minus] at hle2
          omega
        · rw [requested_unnamed rest pid2 (fun q3 h3 => hnamed ⟨q3, h3⟩)]
          omega
      · have hmem2 : JsItem.obj (.int pid2) (.int q2) ∈ rest := by
          rcases List.mem_cons.1 hmem with h | h
          · simp only [JsItem.obj.injEq, JsNum.int.injEq] at h
            exact absurd h.1 hpid
          · exact h
        obtain ⟨p2, hp2, hid2, hle2⟩ := hc pid2 q2 hmem2
        simp only [take, List.mem_map] at hp2
        obtain ⟨r, hr, rfl⟩ := hp2
        have hne : ¬ pid = pid2 := fun e => hpid e.symm
        by_cases hh : r.id = pid
        · simp only [hh, if_true] at hid2
          exact absurd hid2 hne
        · simp only [hh, if_false] at hid2 hle2
          refine ⟨r, hr, hid2, ?_⟩
          simp only [requested_cons, JsItem.quantityOf, hne, if_false, zero_add]
          exact hle2
    · intro hc
      constructor
      · obtain ⟨p, hp, hid, hle⟩ := hc pid q (List.mem_cons_self _ _)
        refine ⟨p, hp, hid, ?_⟩
        simp only [requested_cons, JsItem.quantityOf, if_true] at hle
        have := requested_nonneg rest hvr pid
        simp only [requested, List.map_nil, List.sum_nil, sub_zero]
        simp only [requested] at this hle
        omega
      · intro pid2 q2 hmem
        obtain ⟨r, hr, hid, hle⟩ := hc pid2 q2 (List.mem_cons_of_mem _ hmem)
        refine ⟨_, List.mem_map_of_mem _ hr, ?_, ?_⟩
        · show (if r.id = pid then _ else r).id = pid2
          split <;> exact hid
        · show requested rest pid2 ≤ (if r.id = pid then _ else r).stock.floor
          simp only [requested_cons, JsItem.quantityOf] at hle
          by_cases hh : r.id = pid
          · have h2 : pid = pid2 := hh.symm.trans hid
            simp only [hh, h2, if_true, SqlNum.minus] at hle ⊢
            omega
          · have h2 : ¬ pid = pid2 := fun e => hh (hid.trans e.symm)
            simp only [hh, h2, if_false, zero_add] at hle ⊢
            exact hle

/-! ## Atomicity -/

/-- A call that does not answer 200 leaves the store as it was. -/
theorem placeOrder_failed_store (s : Store) (body : OrderBody) (now : Int)
    (h : (placeOrder s body now).1.status ≠ 200) : (placeOrder s body now).2 = s := by
  obtain ⟨name, email, items⟩ := body
  cases name with
  | none => rfl
  | some name =>
  cases email with
  | none => rfl
  | some email =>
  cases items with
  | none => rfl
  | some items =>
  simp only [placeOrder] at h ⊢
  by_cases hbad : name = "" ∨ email = "" ∨ items.length = 0
  · rw [if_pos hbad]
  · rw [if_neg hbad] at h ⊢
    simp only [transaction] at h ⊢
    cases hc : createOrderBody name email items now s with
    | mk r s1 =>
      cases r with
      | error e => rfl
      | ok r =>
        rw [hc] at h
        exact absurd rfl h

/-- C1. A `POST /api/orders` call that fails (any status other than 200: a
malformed body or item, a missing product, insufficient stock, at any item
position) leaves the whole store (stocks, orders, order items, counters) as it was
before the call. -/
theorem placeOrder_failure_restores_store (s : Store) (body : OrderBody) (now : Int)
    (h : (placeOrder s body now).1.status ≠ 200) : (placeOrder s body now).2 = s := by
  cases hr : transaction
      (createOrderBody (body.name.getD "") (body.email.getD "") (body.items.getD []) now) s with
  | mk r s1 =>
    obtain ⟨name, email, items⟩ := body
    cases name with
    | none => rfl
    | some name =>
    cases email with
    | none => rfl
    | some email =>
    cases items with
    | none => rfl
    | some items =>
    simp only [Option.getD_some] at hr
    simp only [placeOrder] at h ⊢
    by_cases hbad : name = "" ∨ email = "" ∨ items.length = 0
    · rw [if_pos hbad]
    · rw [if_neg hbad, hr] at h ⊢
      cases r with
      | ok result => exact absurd rfl h
      | error message =>
        simp only [transaction] at hr
        cases hc : createOrderBody name email items now s with
        | mk r2 s2 =>
          rw [hc] at hr
          cases r2 with
          | ok a => cases hr
          | error e =>
            simp only [Prod.mk.injEq] at hr
            exact hr.2.symm

/-- C1, worked case: an order of three items fails on its second item for lack
of stock; the function run inside the transaction had already taken the first
item from the stock, and the store after the call is the store before it. -/
theorem placeOrder_failure_restores_store_witness :
    (createOrderBody "Ann" "ann@example.com"
        [.obj (.int 1) (.int 2), .obj (.int 2) (.int 4), .obj (.int 3) (.int 1)]
        7 demoStore).2 ≠ demoStore ∧
    (placeOrder demoStore (demoOrder [(1, 2), (2, 4), (3, 1)]) 7).1
      = ⟨400, .error "Insufficient stock for one of the items."⟩ ∧
    (placeOrder demoStore (demoOrder [(1, 2), (2, 4), (3, 1)]) 7).2 = demoStore :=
  ⟨by decide, by decide,
   placeOrder_failure_restores_store demoStore (demoOrder [(1, 2), (2, 4), (3, 1)]) 7
     (by decide)⟩

/-! ## Stock effect and the oversell invariant -/

theorem decrement_ids (s : Store) (items : List JsItem) :
    (s.products.map (decrement items)).map Product.id = s.products.map Product.id := by
  rw [List.map_map]
  rfl

/-- The products after a call: decremented by the line items when the call
succeeded (and then the items were valid and covered), untouched otherwise. -/
theorem placeOrder_products {s : Store} (hu : UniqueProductIds s) (hr : StocksInRange s)
    (body : OrderBody) (now : Int) :
    ((placeOrder s body now).1.status = 200 →
      (placeOrder s body now).2.products = s.products.map (decrement (body.items.getD [])) ∧
      (∀ item ∈ body.items.getD [], item.valid = true) ∧
      Covered s (body.items.getD [])) ∧
    ((placeOrder s body now).1.status ≠ 200 → (placeOrder s body now).2.products = s.products) := by
  constructor
  · intro h
    obtain ⟨name, email, items, rfl, _, _, _, hv, hf, heq⟩ := placeOrder_ok hu hr h
    refine ⟨?_, hv, (allFulfillable_iff_covered items s hu hv).1 hf⟩
    rw [heq]
    simp only [(insertItems_frame _ _ _).1, insertOrder, decrementAll, Option.getD_some]
  · intro h
    rw [placeOrder_failed_store s body now h]

theorem requested_le_stock {s : Store} (hu : UniqueProductIds s) {items : List JsItem}
    (hc : Covered s items) {p : Product} (hp : p ∈ s.products) (h0 : 0 ≤ p.stock.floor) :
    requested items p.id ≤ p.stock.floor := by
  by_cases hnamed : ∃ q, JsItem.obj (.int p.id) (.int q) ∈ items
  · obtain ⟨q, hq⟩ := hnamed
    obtain ⟨r, hr, hid, hle⟩ := hc p.id q hq
    have : r = p := same_row hu hp hr hid
    subst this
    exact hle
  · rw [requested_unnamed items p.id (fun q hq => hnamed ⟨q, hq⟩)]
    exact h0

/-- One call keeps the key, the sign and the range of the stocks, and takes from
each product what it sold of it. -/
theorem placeOrder_step {s : Store} (hu : UniqueProductIds s)
    (h0 : ∀ p ∈ s.products, 0 ≤ p.stock.floor) (hr : StocksInRange s)
    (body : OrderBody) (now : Int) :
    UniqueProductIds (placeOrder s body now).2 ∧
    (∀ r ∈ (placeOrder s body now).2.products, 0 ≤ r.stock.floor) ∧
    StocksInRange (placeOrder s body now).2 ∧
    ∀ p ∈ s.products, ∃ r ∈ (placeOrder s body now).2.products, r.id = p.id ∧
      r.stock.floor + (if (placeOrder s body now).1.status = 200
        then requested (body.items.getD []) p.id else 0) = p.stock.floor := by
  by_cases h : (placeOrder s body now).1.status = 200
  · obtain ⟨hprod, hv, hc⟩ := (placeOrder_products hu hr body now).1 h
    refine ⟨?_, ?_, ?_, ?_⟩
    · unfold UniqueProductIds
      rw [hprod, decrement_ids]
      exact hu
    · intro r hrm
      rw [hprod, List.mem_map] at hrm
      obtain ⟨p, hp, rfl⟩ := hrm
      have := requested_le_stock hu hc hp (h0 p hp)
      simp only [decrement, SqlNum.minus]
      omega
    · intro r hrm
      rw [hprod, List.mem_map] at hrm
      obtain ⟨p, hp, rfl⟩ := hrm
      have h1 := hr p hp
      have h2 := requested_nonneg _ hv p.id
      simp only [decrement, SqlNum.minus]
      omega
    · intro p hp
      refine ⟨decrement (body.items.getD []) p, ?_, rfl, ?_⟩
      · rw [hprod]
        exact List.mem_map_of_mem _ hp
      · simp only [h, if_true, decrement, SqlNum.minus]
        omega
  · have hs := placeOrder_failed_store s body now h
    rw [hs]
    refine ⟨hu, h0, hr, fun p hp => ⟨p, hp, rfl, ?_⟩⟩
    simp only [h, if_false, add_zero]

theorem runOrders_conserves (calls : List (OrderBody × Int)) :
    ∀ s : Store, UniqueProductIds s → (∀ p ∈ s.products, 0 ≤ p.stock.floor) →
      StocksInRange s →
      (∀ r ∈ (runOrders s calls).products, 0 ≤ r.stock.floor) ∧
      ∀ p ∈ s.products, ∃ r ∈ (runOrders s calls).products, r.id = p.id ∧
        r.stock.floor + sold p.id s calls = p.stock.floor := by
  induction calls with
  | nil =>
    intro s _ h0 _
    exact ⟨h0, fun p hp => ⟨p, hp, rfl, by simp [sold]⟩⟩
  | cons call rest ih =>
    intro s hu h0 hr
    obtain ⟨hu1, h01, hr1', hstep⟩ := placeOrder_step hu h0 hr call.1 call.2
    obtain ⟨hnn, hcons⟩ := ih _ hu1 h01 hr1'
    refine ⟨hnn, ?_⟩
    intro p hp
    obtain ⟨r1, hr1, hid1, hfl1⟩ := hstep p hp
    obtain ⟨r, hr, hid, hfl⟩ := hcons r1 hr1
    refine ⟨r, hr, hid.trans hid1, ?_⟩
    rw [hid1] at hfl
    simp only [sold]
    omega

/-- C2 as stated fails: the bulk shop has unique ids and non-negative stocks,
and product 4 has a stock of `1e21`.  An order of 1 unit succeeds and leaves the
stock at `1e21`, because `1e21 - 1` is not a double; an order of `1e21` units
then succeeds too, so `1e21 + 1` units are sold from a stock of `1e21`. -/
theorem oversell_beyond_exact_range :
    UniqueProductIds bulkStore ∧ (∀ p ∈ bulkStore.products, 0 ≤ p.stock.floor) ∧
    demoP4 ∈ bulkStore.products ∧ demoP4.stock.floor = 1000000000000000000000 ∧
    (placeOrder bulkStore (demoOrder [(4, 1)]) 1).1.status = 200 ∧
    (placeOrder (placeOrder bulkStore (demoOrder [(4, 1)]) 1).2
        (demoOrder [(4, 1000000000000000000000)]) 2).1.status = 200 ∧
    sold demoP4.id bulkStore
        [(demoOrder [(4, 1)], 1), (demoOrder [(4, 1000000000000000000000)], 2)]
      = 1000000000000000000001 ∧
    ¬ sold demoP4.id bulkStore
        [(demoOrder [(4, 1)], 1), (demoOrder [(4, 1000000000000000000000)], 2)]
      ≤ demoP4.stock.floor := by
  decide

/-- C2, amended.  Oversell invariant in the exact range.  From a store whose
product ids are unique (the primary key) and whose stocks are non-negative and
at most `Number.MAX_SAFE_INTEGER`, run any finite sequence of order requests one
after the other.  For every product, the quantity sold by the calls that
succeeded is at most the stock the product had at the start, and after any
number of the calls no stock is negative.  (A stock is compared through its
integer part, which decides the comparison with an integer.) -/
theorem no_oversell (s : Store) (calls : List (OrderBody × Int))
    (hu : UniqueProductIds s) (h0 : ∀ p ∈ s.products, 0 ≤ p.stock.floor)
    (hr : StocksInRange s) :
    (∀ p ∈ s.products, sold p.id s calls ≤ p.stock.floor) ∧
    ∀ k, ∀ r ∈ (runOrders s (calls.take k)).products, 0 ≤ r.stock.floor := by
  constructor
  · intro p hp
    obtain ⟨hnn, hcons⟩ := runOrders_conserves calls s hu h0 hr
    obtain ⟨r, hrm, _, hfl⟩ := hcons p hp
    have := hnn r hrm
    omega
  · intro k
    exact (runOrders_conserves (calls.take k) s hu h0 hr).1

/-- C2, worked case: three orders for product 1 (stock 5) of quantities 3, 3
and 2; the second is refused, 5 units are sold in all and the stock ends at 0. -/
theorem no_oversell_witness :
    sold 1 demoStore [(demoOrder [(1, 3)], 1), (demoOrder [(1, 3)], 2), (demoOrder [(1, 2)], 3)] = 5 ∧
    ((∀ p ∈ demoStore.products,
        sold p.id demoStore
          [(demoOrder [(1, 3)], 1), (demoOrder [(1, 3)], 2), (demoOrder [(1, 2)], 3)]
          ≤ p.stock.floor) ∧
      ∀ k, ∀ r ∈ (runOrders demoStore
          (([(demoOrder [(1, 3)], 1), (demoOrder [(1, 3)], 2),
             (demoOrder [(1, 2)], 3)] : List (OrderBody × Int)).take k)).products,
        0 ≤ r.stock.floor) :=
  ⟨by decide,
   no_oversell demoStore
     [(demoOrder [(1, 3)], 1), (demoOrder [(1, 3)], 2), (demoOrder [(1, 2)], 3)]
     (by decide) (by decide) (by decide)⟩

/-- C3 as stated fails: on the bulk shop an order of 1 unit of product 4 (stock
`1e21`) succeeds, and the stock afterwards is still `1e21`, not `1e21 - 1`. -/
theorem stock_unchanged_beyond_exact_range :
    (placeOrder bulkStore (demoOrder [(4, 1)]) 7).1.status = 200 ∧
    requested ((demoOrder [(4, 1)]).items.getD []) 4 = 1 ∧
    bulkStore.products.map (fun p => p.stock.floor) = [5, 3, 10, 1000000000000000000000] ∧
    (placeOrder bulkStore (demoOrder [(4, 1)]) 7).2.products.map (fun p => p.stock.floor)
      = [5, 3, 10, 1000000000000000000000] := by
  decide

/-- C3, amended.  Stock effect of a successful order on a store whose product
ids are unique (the primary key) and whose stocks are at most
`Number.MAX_SAFE_INTEGER`: the products afterwards are the products before, each
with the summed quantity of the line items naming it taken from its stock;
repeated items for one product add up, every other field of every product is as
before, and a product no item names is unchanged. -/
theorem placeOrder_stock_effect (s : Store) (body : OrderBody) (now : Int)
    (hu : UniqueProductIds s) (hr : StocksInRange s)
    (h : (placeOrder s body now).1.status = 200) :
    (placeOrder s body now).2.products
      = s.products.map (decrement (body.items.getD [])) ∧
    (∀ p : Product,
      (decrement (body.items.getD []) p).stock.floor
        = p.stock.floor - requested (body.items.getD []) p.id ∧
      (decrement (body.items.getD []) p).stock.integral = p.stock.integral ∧
      (decrement (body.items.getD []) p).id = p.id ∧
      (decrement (body.items.getD []) p).name = p.name ∧
      (decrement (body.items.getD []) p).description = p.description ∧
      (decrement (body.items.getD []) p).price_cents = p.price_cents ∧
      (decrement (body.items.getD []) p).image_url = p.image_url ∧
      (decrement (body.items.getD []) p).category = p.category ∧
      (decrement (body.items.getD []) p).created_at = p.created_at) ∧
    (∀ p : Product, (∀ q, JsItem.obj (.int p.id) (.int q) ∉ body.items.getD []) →
      decrement (body.items.getD []) p = p) := by
  refine ⟨((placeOrder_products hu hr body now).1 h).1, ?_, ?_⟩
  · intro p
    exact ⟨rfl, rfl, rfl, rfl, rfl, rfl, rfl, rfl, rfl⟩
  · intro p hp
    simp only [decrement, requested_unnamed _ p.id hp, SqlNum.minus, sub_zero]

/-- C3, worked case: stock 5, one item of quantity 5, leaves stock 0 (and the
other two stocks as they were); two items of quantities 2 and 3 for the same
product do the same. -/
theorem placeOrder_stock_effect_witness :
    (placeOrder demoStore (demoOrder [(1, 5)]) 7).2.products.map (fun p => p.stock.floor)
      = [0, 3, 10] ∧
    (placeOrder demoStore (demoOrder [(1, 2), (1, 3)]) 7).2.products.map
      (fun p => p.stock.floor) = [0, 3, 10] ∧
    (placeOrder demoStore (demoOrder [(1, 5)]) 7).2.products
      = demoStore.products.map (decrement ((demoOrder [(1, 5)]).items.getD [])) :=
  ⟨by decide, by decide,
   (placeOrder_stock_effect demoStore (demoOrder [(1, 5)]) 7 (by decide) (by decide)
      (by decide)).1⟩

/-! ## Total and persisted rows -/

theorem getProduct_decrementAll (s : Store) (items : List JsItem) (pid : Int) :
    getProduct (decrementAll s items) pid = (getProduct s pid).map (decrement items) := by
  simp only [getProduct, decrementAll, List.find?_map]
  rfl

theorem priceOf_decrementAll (s : Store) (items : List JsItem) (pid : Int) :
    priceOf (decrementAll s items) pid = priceOf s pid := by
  simp only [priceOf, getProduct_decrementAll]
  cases getProduct s pid <;> rfl

theorem le_foldr_max (ids : List Int) : ∀ x ∈ ids, x ≤ ids.foldr max 0 := by
  induction ids with
  | nil => intro x hx; cases hx
  | cons a ids ih =>
    intro x hx
    simp only [List.foldr_cons]
    rcases List.mem_cons.1 hx with rfl | hx
    · exact le_max_left _ _
    · exact le_trans (ih x hx) (le_max_right _ _)

theorem nextRowid_fresh (seq : Int) (ids : List Int) : nextRowid seq ids ∉ ids := by
  intro hmem
  have h1 := le_foldr_max ids _ hmem
  have h2 : ids.foldr max 0 ≤ max seq (ids.foldr max 0) := le_max_right _ _
  unfold nextRowid at h1
  omega

theorem nextRowid_above (seq : Int) (ids : List Int) : seq < nextRowid seq ids := by
  have h : seq ≤ max seq (ids.foldr max 0) := le_max_left _ _
  unfold nextRowid
  omega

/-! ## The item loop, whatever the stocks -/

theorem getProduct_updateStock (s : Store) (q pid pid2 : Int) :
    getProduct (updateStock s q pid).2 pid2 = (getProduct s pid2).map (fun p =>
      if p.id = pid ∧ p.stock.ge q = true then { p with stock := p.stock.sub q } else p) := by
  simp only [getProduct, updateStock, List.find?_map]
  have : ((fun p : Product => decide (p.id = pid2)) ∘ fun p =>
      if p.id = pid ∧ p.stock.ge q = true then { p with stock := p.stock.sub q } else p)
      = fun p => decide (p.id = pid2) := by
    funext r
    simp only [Function.comp]
    split <;> rfl
  rw [this]

theorem priceOf_updateStock (s : Store) (q pid pid2 : Int) :
    priceOf (updateStock s q pid).2 pid2 = priceOf s pid2 := by
  simp only [priceOf, getProduct_updateStock]
  cases getProduct s pid2 with
  | none => rfl
  | some r =>
    simp only [Option.map_some']
    split <;> rfl

theorem accumulated_congr {s s2 : Store} (h : ∀ pid, priceOf s2 pid = priceOf s pid)
    (items : List JsItem) : ∀ total, accumulated s2 total items = accumulated s total items := by
  induction items with
  | nil => intro total; rfl
  | cons head rest ih =>
    intro total
    cases head with
    | null => simp only [accumulated, ih]
    | obj a b => cases a <;> cases b <;> simp only [accumulated, ih, h]

theorem normalize_congr {s s2 : Store} (h : ∀ pid, priceOf s2 pid = priceOf s pid) :
    normalize s2 = normalize s := by
  funext item
  cases item with
  | null => rfl
  | obj a b => cases a <;> cases b <;> simp [normalize, h]

/-- The loop never changes a price: the store it has reached, at any moment and
on any outcome, holds for every product the price of the store it started
from. -/
theorem priceOf_forEachItem (items : List JsItem) :
    ∀ (s : Store) (total : Int) (acc : List NormalizedItem) (pid : Int),
      priceOf (forEachItem items s total acc).2 pid = priceOf s pid := by
  induction items with
  | nil => intro s total acc pid; rfl
  | cons head rest ih =>
    intro s total acc pid
    by_cases hv : head.valid = true
    · obtain ⟨p, q, rfl, hq⟩ := valid_shape hv
      rw [forEachItem, if_neg (by omega)]
      cases hg : getProduct s p with
      | none => rfl
      | some product =>
        simp only
        by_cases hc : (updateStock s q p).1 = 0
        · rw [if_pos hc]
          exact priceOf_updateStock s q p pid
        · rw [if_neg hc, ih]
          exact priceOf_updateStock s q p pid
    · obtain ⟨e, he⟩ := forEachItem_invalid (by simpa using hv) rest s total acc
      rw [he]

/-- A loop that ran to its end saw only valid items; it returns the total
accumulated in double arithmetic and one normalized item per line item, with
the price of the store the loop started from, and it wrote to no table but
`products`. -/
theorem forEachItem_ok_general (items : List JsItem) :
    ∀ (s : Store) (total : Int) (acc : List NormalizedItem)
      (r : Int × List NormalizedItem) (s1 : Store),
      forEachItem items s total acc = (.ok r, s1) →
      (∀ item ∈ items, item.valid = true) ∧
      r = (accumulated s total items, acc ++ items.filterMap (normalize s)) ∧
      ∃ ps, s1 = { s with products := ps } := by
  induction items with
  | nil =>
    intro s total acc r s1 h
    rw [forEachItem] at h
    simp only [Prod.mk.injEq, Except.ok.injEq] at h
    refine ⟨fun _ hm => (List.not_mem_nil _ hm).elim, ?_, s.products, ?_⟩
    · rw [← h.1]
      simp [accumulated]
    · rw [← h.2]
  | cons head rest ih =>
    intro s total acc r s1 h
    by_cases hv : head.valid = true
    · obtain ⟨p, q, rfl, hq⟩ := valid_shape hv
      rw [forEachItem, if_neg (by omega)] at h
      cases hg : getProduct s p with
      | none =>
        rw [hg] at h
        cases h
      | some product =>
        rw [hg] at h
        simp only at h
        by_cases hc : (updateStock s q p).1 = 0
        · rw [if_pos hc] at h
          cases h
        · rw [if_neg hc] at h
          obtain ⟨hvr, hr, ps, hs1⟩ := ih _ _ _ _ _ h
          have hprice : ∀ pid, priceOf (updateStock s q p).2 pid = priceOf s pid :=
            priceOf_updateStock s q p
          have hp : priceOf s p = product.price_cents := by simp only [priceOf, hg]
          refine ⟨?_, ?_, ps, ?_⟩
          · intro item hi
            rcases List.mem_cons.1 hi with rfl | hi
            · exact hv
            · exact hvr item hi
          · rw [hr, accumulated_congr hprice, normalize_congr hprice]
            simp only [accumulated, List.filterMap_cons, normalize, hp, List.append_assoc,
              List.singleton_append]
          · rw [hs1]
            simp only [updateStock]
    · obtain ⟨e, he⟩ := forEachItem_invalid (by simpa using hv) rest s total acc
      rw [he] at h
      cases h

/-- The shape of a successful order on any store: the body is well formed,
every item is valid, the loop left a store that differs from the initial one in
`products` only, and the response and the rows are computed from the prices of
the store the call started from. -/
theorem placeOrder_ok_general {s : Store} {body : OrderBody} {now : Int}
    (h : (placeOrder s body now).1.status = 200) :
    ∃ name email items ps, body = ⟨some name, some email, some items⟩ ∧
      name ≠ "" ∧ email ≠ "" ∧ items ≠ [] ∧
      (∀ item ∈ items, item.valid = true) ∧
      placeOrder s body now =
        (⟨200, .order (nextRowid s.seq_orders (s.orders.map Order.id))
            (accumulated s 0 items)⟩,
         insertItems
           (insertOrder { s with products := ps } name email (accumulated s 0 items)
             "placed" now).2
           (nextRowid s.seq_orders (s.orders.map Order.id))
           (items.filterMap (normalize s))) := by
  obtain ⟨name, email, items⟩ := body
  cases name with
  | none => simp [placeOrder] at h
  | some name =>
  cases email with
  | none => simp [placeOrder] at h
  | some email =>
  cases items with
  | none => simp [placeOrder] at h
  | some items =>
  simp only [placeOrder] at h ⊢
  by_cases hbad : name = "" ∨ email = "" ∨ items.length = 0
  · rw [if_pos hbad] at h
    simp at h
  · rw [if_neg hbad] at h ⊢
    simp only [not_or] at hbad
    obtain ⟨hn, he, hi⟩ := hbad
    simp only [transaction, createOrderBody] at h ⊢
    cases hfe : forEachItem items s 0 [] with
    | mk r s1 =>
      cases r with
      | error e =>
        rw [hfe] at h
        simp at h
      | ok r =>
        obtain ⟨hv, hr, ps, hs1⟩ := forEachItem_ok_general items s 0 [] r s1 hfe
        subst hr
        subst hs1
        refine ⟨name, email, items, ps, rfl, hn, he, ?_, hv, ?_⟩
        · intro e
          exact hi (by rw [e]; rfl)
        · simp only [insertOrder, List.nil_append]

/-! ## Order total -/

theorem priceOf_nonneg {s : Store} (h : ∀ p ∈ s.products, 0 ≤ p.price_cents) (pid : Int) :
    0 ≤ priceOf s pid := by
  unfold priceOf
  cases hg : getProduct s pid with
  | none => exact le_refl _
  | some p => exact h p (getProduct_some hg).1

theorem lineCost_nonneg {s : Store} (h : ∀ p ∈ s.products, 0 ≤ p.price_cents)
    {item : JsItem} (hv : item.valid = true) : 0 ≤ lineCost s item := by
  obtain ⟨p, q, rfl, hq⟩ := valid_shape hv
  exact Int.mul_nonneg (priceOf_nonneg h p) (by omega)

theorem orderTotal_nonneg {s : Store} (h : ∀ p ∈ s.products, 0 ≤ p.price_cents)
    (items : List JsItem) (hv : ∀ item ∈ items, item.valid = true) :
    0 ≤ orderTotal s items := by
  induction items with
  | nil => simp [orderTotal]
  | cons head rest ih =>
    have h1 := lineCost_nonneg h (hv head (List.mem_cons_self _ _))
    have h2 := ih (fun item hi => hv item (List.mem_cons_of_mem _ hi))
    simp only [orderTotal, List.map_cons, List.sum_cons] at h2 ⊢
    omega

/-- With non-negative prices and a sum within the exact range, the total the
loop accumulates in double arithmetic is the exact sum. -/
theorem accumulated_exact {s : Store} (h : ∀ p ∈ s.products, 0 ≤ p.price_cents)
    (items : List JsItem) :
    ∀ total, (∀ item ∈ items, item.valid = true) → 0 ≤ total →
      total + orderTotal s items ≤ maxSafe →
      accumulated s total items = total + orderTotal s items := by
  induction items with
  | nil => intro total _ _ _; simp [accumulated, orderTotal]
  | cons head rest ih =>
    intro total hv h0 hr
    obtain ⟨p, q, rfl, hq⟩ := valid_shape (hv head (List.mem_cons_self _ _))
    have hvr : ∀ item ∈ rest, item.valid = true :=
      fun item hi => hv item (List.mem_cons_of_mem _ hi)
    have h1 : 0 ≤ priceOf s p * q := Int.mul_nonneg (priceOf_nonneg h p) (by omega)
    have h2 := orderTotal_nonneg h rest hvr
    simp only [orderTotal, List.map_cons, List.sum_cons, lineCost] at hr h2 ⊢
    simp only [accumulated]
    rw [toDouble_exact h1 (by omega), toDouble_exact (by omega) (by omega),
      ih _ hvr (by omega) (by simp only [orderTotal]; omega)]
    simp only [orderTotal]
    omega

/-- C4 as stated fails: on the bulk shop an order of 11 units of product 4, at
900719925474001 cents each, succeeds and returns 9907919180214012, while unit
price times quantity is 9907919180214011, which is not a double. -/
theorem total_rounded_beyond_exact_range :
    (placeOrder bulkStore (demoOrder [(4, 11)]) 7).1
      = ⟨200, .order 1 9907919180214012⟩ ∧
    priceOf bulkStore 4 = 900719925474001 ∧
    orderTotal bulkStore ((demoOrder [(4, 11)]).items.getD []) = 9907919180214011 := by
  decide

/-- C4, amended.  Order total in the exact range.  On a store whose prices are
non-negative, a successful order whose sum of unit price times quantity is at
most `Number.MAX_SAFE_INTEGER` returns that sum as `total_cents`, and the order
row it adds stores that value.  The unit price is the price held when the item
is processed: the store the loop has reached after the earlier items of the call
holds the same price for the product as the store the call started from. -/
theorem placeOrder_total (s : Store) (body : OrderBody) (now : Int)
    (hprice : ∀ p ∈ s.products, 0 ≤ p.price_cents)
    (hrange : orderTotal s (body.items.getD []) ≤ maxSafe)
    (h : (placeOrder s body now).1.status = 200) :
    ∃ orderId : Int,
      (placeOrder s body now).1
        = ⟨200, .order orderId (orderTotal s (body.items.getD []))⟩ ∧
      (∃ o : Order, (placeOrder s body now).2.orders = s.orders ++ [o] ∧ o.id = orderId ∧
        o.total_cents = orderTotal s (body.items.getD [])) ∧
      ∀ earlier pid q later,
        body.items.getD [] = earlier ++ JsItem.obj (.int pid) (.int q) :: later →
        priceOf (forEachItem earlier s 0 []).2 pid = priceOf s pid := by
  obtain ⟨name, email, items, ps, rfl, _, _, _, hv, heq⟩ := placeOrder_ok_general h
  simp only [Option.getD_some] at hrange ⊢
  have hacc : accumulated s 0 items = orderTotal s items := by
    rw [accumulated_exact hprice items 0 hv (le_refl _) (by omega)]
    omega
  rw [hacc] at heq
  refine ⟨nextRowid s.seq_orders (s.orders.map Order.id), ?_,
    ⟨⟨nextRowid s.seq_orders (s.orders.map Order.id), name, email, orderTotal s items,
      "placed", now⟩, ?_, rfl, rfl⟩, ?_⟩
  · rw [heq]
  · rw [heq]
    simp only [(insertItems_frame _ _ _).2.1, insertOrder]
  · intro earlier pid q later _
    exact priceOf_forEachItem earlier s 0 [] pid

/-- C4, worked case: unit price 1000 cents, quantity 5, returns 5000. -/
theorem placeOrder_total_witness :
    (placeOrder demoStore (demoOrder [(1, 5)]) 7).1 = ⟨200, .order 1 5000⟩ ∧
    ∃ orderId : Int,
      (placeOrder demoStore (demoOrder [(1, 5)]) 7).1
        = ⟨200, .order orderId (orderTotal demoStore ((demoOrder [(1, 5)]).items.getD []))⟩ ∧
      (∃ o : Order, (placeOrder demoStore (demoOrder [(1, 5)]) 7).2.orders
          = demoStore.orders ++ [o] ∧ o.id = orderId ∧
        o.total_cents = orderTotal demoStore ((demoOrder [(1, 5)]).items.getD [])) ∧
      ∀ earlier pid q later,
        (demoOrder [(1, 5)]).items.getD [] = earlier ++ JsItem.obj (.int pid) (.int q) :: later →
        priceOf (forEachItem earlier demoStore 0 []).2 pid = priceOf demoStore pid :=
  ⟨by decide,
   placeOrder_total demoStore (demoOrder [(1, 5)]) 7 (by decide) (by decide) (by decide)⟩

/-! ## Outcome on well-formed input -/

theorem placeOrder_of_loop_error {s s1 : Store} {name email : String} {items : List JsItem}
    (now : Int) {e : String} (hn : name ≠ "") (he : email ≠ "") (hi : items ≠ [])
    (h : forEachItem items s 0 [] = (.error e, s1)) :
    placeOrder s ⟨some name, some email, some items⟩ now = (⟨400, .error e⟩, s) := by
  have hlen : ¬ items.length = 0 := fun h0 => hi (List.eq_nil_of_length_eq_zero h0)
  simp only [placeOrder]
  rw [if_neg (by simp [hn, he, hlen])]
  simp only [transaction, createOrderBody, h]

theorem placeOrder_of_loop_ok {s s1 : Store} {name email : String} {items : List JsItem}
    (now : Int) {r : Int × List NormalizedItem} (hn : name ≠ "") (he : email ≠ "")
    (hi : items ≠ []) (h : forEachItem items s 0 [] = (.ok r, s1)) :
    (placeOrder s ⟨some name, some email, some items⟩ now).1.status = 200 := by
  have hlen : ¬ items.length = 0 := fun h0 => hi (List.eq_nil_of_length_eq_zero h0)
  simp only [placeOrder]
  rw [if_neg (by simp [hn, he, hlen])]
  simp only [transaction, createOrderBody, h]

theorem decrementAll_unique {s : Store} (hu : UniqueProductIds s) (items : List JsItem) :
    UniqueProductIds (decrementAll s items) := by
  unfold UniqueProductIds
  simp only [decrementAll]
  rw [decrement_ids]
  exact hu

theorem covered_iff_of_nonneg {s : Store} (hu : UniqueProductIds s)
    (h0 : ∀ p ∈ s.products, 0 ≤ p.stock.floor) (items : List JsItem) :
    Covered s items ↔
      (∀ pid q, JsItem.obj (.int pid) (.int q) ∈ items → ∃ p ∈ s.products, p.id = pid) ∧
      ∀ p ∈ s.products, requested items p.id ≤ p.stock.floor := by
  constructor
  · intro hc
    refine ⟨fun pid q hq => ?_, fun p hp => requested_le_stock hu hc hp (h0 p hp)⟩
    obtain ⟨p, hp, hid, _⟩ := hc pid q hq
    exact ⟨p, hp, hid⟩
  · rintro ⟨hex, hle⟩ pid q hq
    obtain ⟨p, hp, hid⟩ := hex pid q hq
    exact ⟨p, hp, hid, hid ▸ hle p hp⟩

/-- An order whose first unfulfillable item names a product the store does not
hold fails with "Product not found.", whatever follows that item. -/
theorem placeOrder_first_missing {s : Store} (hu : UniqueProductIds s)
    (hr : StocksInRange s) {name email : String} (now : Int) (hn : name ≠ "")
    (he : email ≠ "") {earlier later : List JsItem} {pid q : Int}
    (hve : ∀ item ∈ earlier, item.valid = true) (hf : AllFulfillable s earlier)
    (hq : 0 < q) (hno : ∀ p ∈ s.products, p.id ≠ pid) :
    placeOrder s ⟨some name, some email,
        some (earlier ++ JsItem.obj (.int pid) (.int q) :: later)⟩ now
      = (⟨400, .error "Product not found."⟩, s) := by
  have hloop := forEachItem_prefix earlier (JsItem.obj (.int pid) (.int q) :: later)
    s 0 [] hu hr hve hf
  have hg : getProduct (decrementAll s earlier) pid = none := by
    rw [getProduct_decrementAll]
    have : getProduct s pid = none := by
      unfold getProduct
      rw [List.find?_eq_none]
      intro p hp
      simpa using hno p hp
    rw [this]
    rfl
  rw [forEachItem_missing hq hg] at hloop
  exact placeOrder_of_loop_error now hn he (by simp) hloop

/-- An order whose first unfulfillable item names a product whose stock, less
what the earlier items took of it, does not cover the quantity fails with
"Insufficient stock for one of the items.", whatever follows that item. -/
theorem placeOrder_first_short {s : Store} (hu : UniqueProductIds s)
    (hr : StocksInRange s) {name email : String} (now : Int) (hn : name ≠ "")
    (he : email ≠ "") {earlier later : List JsItem} {pid q : Int} {p : Product}
    (hve : ∀ item ∈ earlier, item.valid = true) (hf : AllFulfillable s earlier)
    (hq : 0 < q) (hp : p ∈ s.products) (hid : p.id = pid)
    (hlt : p.stock.floor - requested earlier pid < q) :
    placeOrder s ⟨some name, some email,
        some (earlier ++ JsItem.obj (.int pid) (.int q) :: later)⟩ now
      = (⟨400, .error "Insufficient stock for one of the items."⟩, s) := by
  have hloop := forEachItem_prefix earlier (JsItem.obj (.int pid) (.int q) :: later)
    s 0 [] hu hr hve hf
  have hg : getProduct (decrementAll s earlier) pid = some (decrement earlier p) := by
    rw [getProduct_decrementAll, ← hid, getProduct_of_mem hu hp]
    rfl
  have hlt2 : (decrement earlier p).stock.floor < q := by
    simp only [decrement, SqlNum.minus, hid]
    exact hlt
  rw [forEachItem_short (decrementAll_unique hu earlier) hq hg hlt2] at hloop
  exact placeOrder_of_loop_error now hn he (by simp) hloop

/-- C5 as stated fails: on the bulk shop a well-formed order asks 1 unit and then
`1e21` units of product 4, whose stock is `1e21`; the summed quantity `1e21 + 1`
exceeds the stock, and the call succeeds. -/
theorem order_accepted_beyond_stock :
    (∀ item ∈ (demoOrder [(4, 1), (4, 1000000000000000000000)]).items.getD [],
      item.valid = true) ∧
    requested ((demoOrder [(4, 1), (4, 1000000000000000000000)]).items.getD []) 4
      = 1000000000000000000001 ∧
    demoP4 ∈ bulkStore.products ∧ demoP4.id = 4 ∧
    demoP4.stock.floor = 1000000000000000000000 ∧
    (placeOrder bulkStore (demoOrder [(4, 1), (4, 1000000000000000000000)]) 7).1.status
      = 200 := by
  decide

/-- C5, amended.  Outcome of an order on well-formed input (non-empty name and
email, non-empty items, every item an integer product id with a strictly
positive integer quantity) on a store whose product ids are unique (the primary
key) and whose stocks are at most `Number.MAX_SAFE_INTEGER`.  Items are
processed in the caller's order.  If the first item that cannot be fulfilled
names a product the store does not hold, the call fails with "Product not
found."; if it names a product whose stock, less what the earlier items of the
call took of it, is smaller than its quantity, the call fails with "Insufficient
stock for one of the items.".  The call succeeds exactly when every item can be
fulfilled after the ones before it, which is exactly when every named product
exists with the summed quantity asked of it at most its stock (with non-negative
stocks: every named product exists and, for every product, the summed quantity
is at most its stock). -/
theorem placeOrder_outcome (s : Store) (name email : String) (items : List JsItem)
    (now : Int) (hu : UniqueProductIds s) (hr : StocksInRange s) (hn : name ≠ "")
    (he : email ≠ "") (hi : items ≠ []) (hv : ∀ item ∈ items, item.valid = true) :
    (∀ earlier pid q later, items = earlier ++ JsItem.obj (.int pid) (.int q) :: later →
      AllFulfillable s earlier → (∀ p ∈ s.products, p.id ≠ pid) →
      placeOrder s ⟨some name, some email, some items⟩ now
        = (⟨400, .error "Product not found."⟩, s)) ∧
    (∀ earlier pid q later p, items = earlier ++ JsItem.obj (.int pid) (.int q) :: later →
      AllFulfillable s earlier → p ∈ s.products → p.id = pid →
      p.stock.floor - requested earlier pid < q →
      placeOrder s ⟨some name, some email, some items⟩ now
        = (⟨400, .error "Insufficient stock for one of the items."⟩, s)) ∧
    ((placeOrder s ⟨some name, some email, some items⟩ now).1.status = 200
      ↔ AllFulfillable s items) ∧
    ((placeOrder s ⟨some name, some email, some items⟩ now).1.status = 200
      ↔ Covered s items) ∧
    ((∀ p ∈ s.products, 0 ≤ p.stock.floor) →
      ((placeOrder s ⟨some name, some email, some items⟩ now).1.status = 200 ↔
        (∀ pid q, JsItem.obj (.int pid) (.int q) ∈ items → ∃ p ∈ s.products, p.id = pid) ∧
        ∀ p ∈ s.products, requested items p.id ≤ p.stock.floor)) := by
  have hsucc : (placeOrder s ⟨some name, some email, some items⟩ now).1.status = 200
      ↔ AllFulfillable s items := by
    constructor
    · intro h
      obtain ⟨_, _, items2, hb, _, _, _, _, hf, _⟩ := placeOrder_ok hu hr h
      simp only [OrderBody.mk.injEq, Option.some.injEq] at hb
      rw [hb.2.2]
      exact hf
    · intro hf
      have hp := forEachItem_prefix items [] s 0 [] hu hr hv hf
      rw [List.append_nil, forEachItem] at hp
      exact placeOrder_of_loop_ok now hn he hi hp
  have hparts : ∀ earlier pid q later,
      items = earlier ++ JsItem.obj (.int pid) (.int q) :: later →
      0 < q ∧ ∀ item ∈ earlier, item.valid = true := by
    intro earlier pid q later heq
    constructor
    · have := hv (JsItem.obj (.int pid) (.int q)) (by rw [heq]; simp)
      simpa [JsItem.valid] using this
    · intro item hm
      exact hv item (by rw [heq]; exact List.mem_append_left _ hm)
  refine ⟨?_, ?_, hsucc, ?_, ?_⟩
  · intro earlier pid q later heq hf hno
    obtain ⟨hq, hve⟩ := hparts earlier pid q later heq
    rw [heq]
    exact placeOrder_first_missing hu hr now hn he hve hf hq hno
  · intro earlier pid q later p heq hf hp hid hlt
    obtain ⟨hq, hve⟩ := hparts earlier pid q later heq
    rw [heq]
    exact placeOrder_first_short hu hr now hn he hve hf hq hp hid hlt
  · rw [hsucc]
    exact allFulfillable_iff_covered items s hu hv
  · intro h0
    rw [hsucc, allFulfillable_iff_covered items s hu hv]
    exact covered_iff_of_nonneg hu h0 items

/-- C5, worked cases.  Scenario B: items for product 1 (quantity 2) and for the
unknown product 404 fail with "Product not found." and change nothing.
Scenario A: after an order of all 5 units of product 1, an order of 1 unit fails
with "Insufficient stock for one of the items.". -/
theorem placeOrder_outcome_witness :
    placeOrder demoStore (demoOrder [(1, 2), (404, 1)]) 7
      = (⟨400, .error "Product not found."⟩, demoStore) ∧
    (placeOrder (placeOrder demoStore (demoOrder [(1, 5)]) 7).2 (demoOrder [(1, 1)]) 8).1
      = ⟨400, .error "Insufficient stock for one of the items."⟩ :=
  ⟨(placeOrder_outcome demoStore "Ann" "ann@example.com"
      [.obj (.int 1) (.int 2), .obj (.int 404) (.int 1)] 7
      (by decide) (by decide) (by decide) (by decide) (by decide) (by decide)).1
      [.obj (.int 1) (.int 2)] 404 1 [] rfl
      ((allFulfillable_cons demoStore 1 2 []).2
        ⟨⟨demoP1, by decide, rfl, by decide⟩, allFulfillable_nil _⟩)
      (by decide),
   by decide⟩

theorem map_normalize_valid (s : Store) (items : List JsItem)
    (hv : ∀ item ∈ items, item.valid = true) :
    (items.filterMap (normalize s)).map some = items.map (normalize s) := by
  induction items with
  | nil => rfl
  | cons head rest ih =>
    obtain ⟨pid, q, rfl, _⟩ := valid_shape (hv _ (List.mem_cons_self _ _))
    simp only [List.filterMap_cons, normalize, List.map_cons,
      ih (fun item hm => hv item (List.mem_cons_of_mem _ hm))]

/-- C6. Persisted order (product ids unique, the primary key).  A successful
order adds exactly one order row, appended to the rows already there: it has the
supplied customer name and email, the returned total, status "placed", and its
id is the returned `order_id`, which no earlier order has and which is above
every id the table ever gave out.  It appends exactly
one order item row per supplied line item, in the caller's order, each
referencing the new order and carrying the product id and quantity of the item
and the unit price the store held for the product when the call began.  The
rows that were there before are the same and in the same place. -/
theorem placeOrder_persists (s : Store) (body : OrderBody) (now : Int)
    (hu : UniqueProductIds s) (h : (placeOrder s body now).1.status = 200) :
    ∃ (name email : String) (items : List JsItem) (orderId total : Int)
      (rows : List OrderItem),
      body = ⟨some name, some email, some items⟩ ∧
      (placeOrder s body now).1 = ⟨200, .order orderId total⟩ ∧
      orderId ∉ s.orders.map Order.id ∧ s.seq_orders < orderId ∧
      (placeOrder s body now).2.orders
        = s.orders ++ [⟨orderId, name, email, total, "placed", now⟩] ∧
      (placeOrder s body now).2.order_items = s.order_items ++ rows ∧
      rows.length = items.length ∧
      (∀ r ∈ rows, r.order_id = orderId) ∧
      rows.map (fun r => some (⟨r.product_id, r.quantity, r.price_cents⟩ : NormalizedItem))
        = items.map (normalize s) := by
  have _ := hu
  obtain ⟨name, email, items, ps, rfl, _, _, _, hv, heq⟩ := placeOrder_ok_general h
  obtain ⟨rows, hrows, hmap⟩ := insertItems_rows
    (nextRowid s.seq_orders (s.orders.map Order.id)) (items.filterMap (normalize s))
    (insertOrder { s with products := ps } name email (accumulated s 0 items) "placed" now).2
  have hlen : rows.length = (items.filterMap (normalize s)).length := by
    have := congrArg List.length hmap
    simpa using this
  have hlen2 : (items.filterMap (normalize s)).length = items.length := by
    have := congrArg List.length (map_normalize_valid s items hv)
    simpa using this
  refine ⟨name, email, items, nextRowid s.seq_orders (s.orders.map Order.id),
    accumulated s 0 items, rows, rfl, ?_, nextRowid_fresh _ _, nextRowid_above _ _, ?_, ?_,
    hlen.trans hlen2, ?_, ?_⟩
  · rw [heq]
  · rw [heq]
    simp only [(insertItems_frame _ _ _).2.1, insertOrder]
  · rw [heq]
    exact hrows
  · intro r hr
    have hm : (r.order_id, r.product_id, r.quantity, r.price_cents) ∈
        rows.map (fun r => (r.order_id, r.product_id, r.quantity, r.price_cents)) :=
      List.mem_map_of_mem _ hr
    rw [hmap, List.mem_map] at hm
    obtain ⟨i, _, hi⟩ := hm
    simp only [Prod.mk.injEq] at hi
    exact hi.1.symm
  · rw [← map_normalize_valid s items hv]
    have := congrArg (List.map (fun t : Int × Int × Int × Int =>
      some (⟨t.2.1, t.2.2.1, t.2.2.2⟩ : NormalizedItem))) hmap
    simpa [List.map_map, Function.comp] using this

/-- C6, worked case: an order of two lines on the demo shop adds order 1 and
the two order item rows, with the unit prices 1000 and 250 captured. -/
theorem placeOrder_persists_witness :
    (placeOrder demoStore (demoOrder [(1, 2), (2, 1)]) 7).2.orders
      = [⟨1, "Ann", "ann@example.com", 2250, "placed", 7⟩] ∧
    (placeOrder demoStore (demoOrder [(1, 2), (2, 1)]) 7).2.order_items
      = [⟨1, 1, 1, 2, 1000⟩, ⟨2, 1, 2, 1, 250⟩] ∧
    ∃ (name email : String) (items : List JsItem) (orderId total : Int)
      (rows : List OrderItem),
      demoOrder [(1, 2), (2, 1)] = ⟨some name, some email, some items⟩ ∧
      (placeOrder demoStore (demoOrder [(1, 2), (2, 1)]) 7).1 = ⟨200, .order orderId total⟩ ∧
      orderId ∉ demoStore.orders.map Order.id ∧ demoStore.seq_orders < orderId ∧
      (placeOrder demoStore (demoOrder [(1, 2), (2, 1)]) 7).2.orders
        = demoStore.orders ++ [⟨orderId, name, email, total, "placed", 7⟩] ∧
      (placeOrder demoStore (demoOrder [(1, 2), (2, 1)]) 7).2.order_items
        = demoStore.order_items ++ rows ∧
      rows.length = items.length ∧
      (∀ r ∈ rows, r.order_id = orderId) ∧
      rows.map (fun r => some (⟨r.product_id, r.quantity, r.price_cents⟩ : NormalizedItem))
        = items.map (normalize demoStore) :=
  ⟨by decide, by decide,
   placeOrder_persists demoStore (demoOrder [(1, 2), (2, 1)]) 7 (by decide) (by decide)⟩

/-! ## Product update -/

theorem foldl_apply_append (p : Product) (a b : List Assignment) :
    (a ++ b).foldl Assignment.apply p = b.foldl Assignment.apply (a.foldl Assignment.apply p) :=
  List.foldl_append _ _ _ _

theorem pushText_apply (field : Option String) (mk : String → Assignment) (p : Product) :
    (pushText field mk).foldl Assignment.apply p
      = if truthy field = true then (mk (field.getD "")).apply p else p := by
  cases field with
  | none => rfl
  | some v =>
    by_cases hv : v = ""
    · simp [pushText, truthy, hv]
    · simp [pushText, truthy, hv, Assignment.apply]

theorem collectUpdates_apply {body : UpdateBody} {updates : List Assignment}
    (h : collectUpdates body = .ok updates) (p : Product) :
    updates.foldl Assignment.apply p = patched body p := by
  obtain ⟨name, description, image_url, category, price, stock⟩ := body
  simp only [collectUpdates] at h
  cases price with
  | none =>
    simp only [pushPrice] at h
    cases stock with
    | none =>
      simp only [pushStock, Except.ok.injEq] at h
      subst h
      simp only [foldl_apply_append, pushText_apply, patched]
      split_ifs <;> rfl
    | some stockNumber =>
      simp only [pushStock] at h
      split_ifs at h
      simp only [Except.ok.injEq] at h
      subst h
      simp only [foldl_apply_append, pushText_apply, patched]
      split_ifs <;> rfl
  | some priceNumber =>
    simp only [pushPrice] at h
    split_ifs at h
    cases stock with
    | none =>
      simp only [pushStock, Except.ok.injEq] at h
      subst h
      simp only [foldl_apply_append, pushText_apply, patched]
      split_ifs <;> rfl
    | some stockNumber =>
      simp only [pushStock] at h
      split_ifs at h
      simp only [Except.ok.injEq] at h
      subst h
      simp only [foldl_apply_append, pushText_apply, patched]
      split_ifs <;> rfl

/-- C7. Frame of a successful product update (status 200).  The id is an
integer, and the store afterwards is the store before with every product of
that id replaced by its patched row; orders, order items, users, sessions and
counters are the same, and so is every product of another id.  In a patched row
the id and creation time are kept, a text field that was not supplied (missing
or empty) is kept, and price and stock are kept when not supplied.  In
particular an order placed before a price change keeps its `total_cents` and
its items keep their `price_cents`. -/
theorem updateProduct_frame (s : Store) (id : JsNum) (body : UpdateBody)
    (h : (updateProduct s id body).1.status = 200) :
    ∃ productId : Int, id = .int productId ∧
      (updateProduct s id body).2 = { s with products := s.products.map (fun p =>
        if p.id = productId then patched body p else p) } ∧
      (updateProduct s id body).2.orders = s.orders ∧
      (updateProduct s id body).2.order_items = s.order_items ∧
      (updateProduct s id body).2.users = s.users ∧
      (updateProduct s id body).2.admin_sessions = s.admin_sessions ∧
      ∀ p : Product,
        (patched body p).id = p.id ∧
        (patched body p).created_at = p.created_at ∧
        (truthy body.name = false → (patched body p).name = p.name) ∧
        (truthy body.description = false → (patched body p).description = p.description) ∧
        (truthy body.image_url = false → (patched body p).image_url = p.image_url) ∧
        (truthy body.category = false → (patched body p).category = p.category) ∧
        (body.price = none → (patched body p).price_cents = p.price_cents) ∧
        (body.stock = none → (patched body p).stock = p.stock) := by
  cases id with
  | int productId =>
    have hstore : (updateProduct s (.int productId) body).2
        = { s with products := s.products.map (fun p =>
            if p.id = productId then patched body p else p) } := by
      simp only [updateProduct] at h ⊢
      cases hc : collectUpdates body with
      | error r =>
        rw [hc] at h
        simp only [collectUpdates] at hc
        cases hp : body.price with
        | none =>
          rw [hp] at hc
          simp only [pushPrice] at hc
          cases hs : body.stock with
          | none => rw [hs] at hc; simp [pushStock] at hc
          | some x =>
            rw [hs] at hc
            simp only [pushStock] at hc
            split_ifs at hc
            simp only [Except.error.injEq] at hc
            rw [← hc] at h
            simp at h
        | some y =>
          rw [hp] at hc
          simp only [pushPrice] at hc
          split_ifs at hc
          · simp only [Except.error.injEq] at hc
            rw [← hc] at h
            simp at h
          · cases hs : body.stock with
            | none => rw [hs] at hc; simp [pushStock] at hc
            | some x =>
              rw [hs] at hc
              simp only [pushStock] at hc
              split_ifs at hc
              simp only [Except.error.injEq] at hc
              rw [← hc] at h
              simp at h
      | ok updates =>
        rw [hc] at h
        simp only at h ⊢
        by_cases h0 : updates.length = 0
        · rw [if_pos h0] at h
          simp at h
        · rw [if_neg h0] at h ⊢
          have hrun : (runUpdate s updates productId).2
              = { s with products := s.products.map (fun p =>
                  if p.id = productId then patched body p else p) } := by
            simp only [runUpdate, collectUpdates_apply hc]
          split_ifs <;> exact hrun
    refine ⟨productId, rfl, hstore, ?_, ?_, ?_, ?_, ?_⟩
    · rw [hstore]
    · rw [hstore]
    · rw [hstore]
    · rw [hstore]
    · intro p
      refine ⟨rfl, rfl, ?_, ?_, ?_, ?_, ?_, ?_⟩
      · intro hf; simp [patched, hf]
      · intro hf; simp [patched, hf]
      · intro hf; simp [patched, hf]
      · intro hf; simp [patched, hf]
      · intro hf; simp [patched, hf]
      · intro hf; simp [patched, hf]
  | frac f r => simp [updateProduct] at h
  | nan => simp [updateProduct] at h
  | inf n => simp [updateProduct] at h

/-- C7, worked case (price snapshot): place an order for 2 units of product 1
at 1000 cents, then change the price of product 1 to 19.99; the product now
costs 1999 cents, while the order still totals 2000 and its item still holds
1000. -/
theorem updateProduct_frame_witness :
    ((updateProduct (placeOrder demoStore (demoOrder [(1, 2)]) 7).2 (.int 1)
        ⟨none, none, none, none, some (.frac 19 1999), none⟩).2.products.map
        (fun p => p.price_cents)) = [1999, 250, 40] ∧
    (updateProduct (placeOrder demoStore (demoOrder [(1, 2)]) 7).2 (.int 1)
        ⟨none, none, none, none, some (.frac 19 1999), none⟩).2.orders
      = [⟨1, "Ann", "ann@example.com", 2000, "placed", 7⟩] ∧
    (updateProduct (placeOrder demoStore (demoOrder [(1, 2)]) 7).2 (.int 1)
        ⟨none, none, none, none, some (.frac 19 1999), none⟩).2.order_items
      = [⟨1, 1, 1, 2, 1000⟩] ∧
    (updateProduct (placeOrder demoStore (demoOrder [(1, 2)]) 7).2 (.int 1)
        ⟨none, none, none, none, some (.frac 19 1999), none⟩).2.orders
      = (placeOrder demoStore (demoOrder [(1, 2)]) 7).2.orders :=
  ⟨by decide, by decide, by decide,
   (updateProduct_frame (placeOrder demoStore (demoOrder [(1, 2)]) 7).2 (.int 1)
      ⟨none, none, none, none, some (.frac 19 1999), none⟩ (by decide)).elim
     (fun _ hx => hx.2.2.1)⟩

/-! ## Session authority -/

theorem mem_sessionRows {s : Store} {token : String} {now : Int} {x : AdminSession}
    {u : User} :
    (x, u) ∈ sessionRows s token now ↔
      x ∈ s.admin_sessions ∧ x.token = token ∧ now < x.expires_at ∧
      u ∈ s.users ∧ u.id = x.user_id := by
  simp only [sessionRows, List.mem_flatMap, List.mem_filter, List.mem_map, Bool.and_eq_true,
    decide_eq_true_eq, Prod.mk.injEq, gt_iff_lt]
  constructor
  · rintro ⟨y, ⟨hy, hty, hey⟩, v, ⟨hv, hvid⟩, rfl, rfl⟩
    exact ⟨hy, hty, hey, hv, hvid⟩
  · rintro ⟨hx, ht, he, hu, hid⟩
    exact ⟨x, ⟨hx, ht, he⟩, u, ⟨hu, hid⟩, rfl, rfl⟩

theorem authorize_ok_iff {s : Store} {t : String} {now : Int} (ht : t ≠ "") (a : Admin) :
    authorize s (some t) now = .ok a ↔
      ∃ row, (sessionRows s t now).head? = some row ∧ a = ⟨row.1.user_id, row.2.email⟩ := by
  simp only [authorize, if_neg ht]
  cases (sessionRows s t now).head? with
  | none => simp
  | some row =>
    simp only [Except.ok.injEq, Option.some.injEq, exists_eq_left']
    exact eq_comm

theorem authorize_rejects {s : Store} {t : String} {now : Int} (ht : t ≠ "")
    (h : sessionRows s t now = []) :
    authorize s (some t) now = .error ⟨401, .error "Unauthorized."⟩ := by
  simp only [authorize, if_neg ht, h, List.head?_nil]

theorem sessionRows_nil_of_later {s : Store} {t : String} {now later : Int}
    (hle : now ≤ later) (h : sessionRows s t now = []) : sessionRows s t later = [] := by
  rw [List.eq_nil_iff_forall_not_mem] at h ⊢
  rintro ⟨x, u⟩ hm
  rw [mem_sessionRows] at hm
  obtain ⟨hx, ht, he, hu, hid⟩ := hm
  exact h (x, u) (mem_sessionRows.2 ⟨hx, ht, by omega, hu, hid⟩)

theorem bearerToken_bearer (t : String) : bearerToken (some ("Bearer " ++ t)) = some t := by
  have h1 : "Bearer ".toList.isPrefixOf ("Bearer " ++ t).toList = true := by
    rw [String.toList, String.toList, String.data_append, List.isPrefixOf_iff_prefix]
    exact List.prefix_append _ _
  have h2 : ("Bearer " ++ t).drop 7 = t := by
    rw [String.drop_eq]
    simp [String.data_append]
  simp only [bearerToken, Option.getD_some, h1, if_true, h2]

/-- C8. `authorize` on a present (non-empty) token `t` at time `now`, on a store
that satisfies the keys of the session tables.  It succeeds if and only if
`admin_sessions` holds a row with exactly that token whose `expires_at` is
strictly later than `now`, and then it returns the id and email of the user the
row is bound to.  Otherwise it answers 401: "Missing token." for an absent or
empty token, "Unauthorized." for an unknown or expired one; a check at exactly
`expires_at`, or at any time after it, is rejected.  With the store unchanged, a
check that is rejected at one time is rejected at every later time.  The
middleware `requireAdmin` is this check on the token of a `Bearer` header, and
on no token when there is no header. -/
theorem authorize_spec (s : Store) (t : String) (now : Int) (ht : t ≠ "")
    (hk : SessionKeys s) :
    ((∃ a, authorize s (some t) now = .ok a) ↔
      ∃ x ∈ s.admin_sessions, x.token = t ∧ now < x.expires_at) ∧
    (∀ x ∈ s.admin_sessions, ∀ u ∈ s.users, x.token = t → now < x.expires_at →
      u.id = x.user_id → authorize s (some t) now = .ok ⟨u.id, u.email⟩) ∧
    ((¬ ∃ x ∈ s.admin_sessions, x.token = t ∧ now < x.expires_at) →
      authorize s (some t) now = .error ⟨401, .error "Unauthorized."⟩) ∧
    authorize s none now = .error ⟨401, .error "Missing token."⟩ ∧
    authorize s (some "") now = .error ⟨401, .error "Missing token."⟩ ∧
    (∀ x ∈ s.admin_sessions, x.token = t → ∀ later, x.expires_at ≤ later →
      authorize s (some t) later = .error ⟨401, .error "Unauthorized."⟩) ∧
    (∀ later, now ≤ later → (∀ a, authorize s (some t) now ≠ .ok a) →
      ∀ a, authorize s (some t) later ≠ .ok a) ∧
    requireAdmin s (some ("Bearer " ++ t)) now = authorize s (some t) now ∧
    requireAdmin s none now = authorize s none now := by
  obtain ⟨htok, huid, hfk⟩ := hk
  have hsame : ∀ x ∈ s.admin_sessions, ∀ y ∈ s.admin_sessions, x.token = y.token → x = y :=
    fun x hx y hy hxy => List.inj_on_of_nodup_map htok hx hy hxy
  have husame : ∀ u ∈ s.users, ∀ v ∈ s.users, u.id = v.id → u = v :=
    fun u hu v hv huv => List.inj_on_of_nodup_map huid hu hv huv
  have hreject : ∀ time, (¬ ∃ x ∈ s.admin_sessions, x.token = t ∧ time < x.expires_at) →
      authorize s (some t) time = .error ⟨401, .error "Unauthorized."⟩ := by
    intro time hno
    apply authorize_rejects ht
    rw [List.eq_nil_iff_forall_not_mem]
    rintro ⟨x, u⟩ hm
    rw [mem_sessionRows] at hm
    exact hno ⟨x, hm.1, hm.2.1, hm.2.2.1⟩
  have haccept : ∀ x ∈ s.admin_sessions, ∀ u ∈ s.users, x.token = t → now < x.expires_at →
      u.id = x.user_id → authorize s (some t) now = .ok ⟨u.id, u.email⟩ := by
    intro x hx u hu hxt hxe hux
    have hm : (x, u) ∈ sessionRows s t now := mem_sessionRows.2 ⟨hx, hxt, hxe, hu, hux⟩
    cases hrows : sessionRows s t now with
    | nil => rw [hrows] at hm; cases hm
    | cons row rest =>
      have hrow : row ∈ sessionRows s t now := by rw [hrows]; exact List.mem_cons_self _ _
      obtain ⟨y, v⟩ := row
      rw [mem_sessionRows] at hrow
      obtain ⟨hy, hyt, _, hv, hvy⟩ := hrow
      have hyx : y = x := hsame y hy x hx (hyt.trans hxt.symm)
      subst hyx
      have hvu : v = u := husame v hv u hu (hvy.trans hux.symm)
      subst hvu
      rw [authorize_ok_iff ht]
      exact ⟨(y, v), by rw [hrows]; rfl, by rw [hux]⟩
  refine ⟨?_, haccept, hreject now, rfl, rfl, ?_, ?_, ?_, rfl⟩
  · constructor
    · rintro ⟨a, ha⟩
      rw [authorize_ok_iff ht] at ha
      obtain ⟨⟨x, u⟩, hhead, _⟩ := ha
      have hm := mem_sessionRows.1 (List.mem_of_mem_head? hhead)
      exact ⟨x, hm.1, hm.2.1, hm.2.2.1⟩
    · rintro ⟨x, hx, hxt, hxe⟩
      obtain ⟨u, hu, hux⟩ := hfk x hx
      exact ⟨_, haccept x hx u hu hxt hxe hux⟩
  · intro x hx hxt later hle
    apply hreject later
    rintro ⟨y, hy, hyt, hye⟩
    have : y = x := hsame y hy x hx (hyt.trans hxt.symm)
    subst this
    omega
  · intro later hle hno a ha
    have hnil : sessionRows s t now = [] := by
      cases hrows : sessionRows s t now with
      | nil => rfl
      | cons row rest =>
        exact absurd ((authorize_ok_iff ht _).2 ⟨row, by rw [hrows]; rfl, rfl⟩) (hno _)
    rw [authorize_rejects ht (sessionRows_nil_of_later hle hnil)] at ha
    cases ha
  · rw [requireAdmin, bearerToken_bearer]

/-- C8, worked case (scenario D on the demo shop, whose session "c0ffee" expires
at 1000): the token is accepted at 999 as the admin, and rejected at 1000 and at
1001. -/
theorem authorize_spec_witness :
    authorize demoStore (some "c0ffee") 999 = .ok ⟨1, "admin@example.com"⟩ ∧
    authorize demoStore (some "c0ffee") 1000 = .error ⟨401, .error "Unauthorized."⟩ ∧
    authorize demoStore (some "c0ffee") 1001 = .error ⟨401, .error "Unauthorized."⟩ ∧
    ((∃ a, authorize demoStore (some "c0ffee") 999 = .ok a) ↔
      ∃ x ∈ demoStore.admin_sessions, x.token = "c0ffee" ∧ 999 < x.expires_at) :=
  ⟨by decide, by decide, by decide,
   (authorize_spec demoStore "c0ffee" 999 (by decide) (by decide)).1⟩

/-! ## Admin gating -/

theorem authorize_error (s : Store) (token : Option String) (now : Int) (r : Response)
    (h : authorize s token now = .error r) :
    r.status = 401 ∧ ∃ message, r.body = .error message := by
  cases token with
  | none =>
    simp only [authorize, Except.error.injEq] at h
    subst h
    exact ⟨rfl, _, rfl⟩
  | some t =>
    simp only [authorize] at h
    split_ifs at h
    · simp only [Except.error.injEq] at h
      subst h
      exact ⟨rfl, _, rfl⟩
    · cases hrows : (sessionRows s t now).head? with
      | none =>
        rw [hrows] at h
        simp only [Except.error.injEq] at h
        subst h
        exact ⟨rfl, _, rfl⟩
      | some row =>
        rw [hrows] at h
        cases h

/-- C9. Admin gating.  For each of the five admin routes (list products,
create, update and delete a product, list orders) and every request on which
`requireAdmin` does not accept the token (missing, unknown or expired), the
caller receives status 401 with an error body, which is the answer of
`requireAdmin` itself, and the store is exactly the store before the request. -/
theorem admin_gate (foreignKeys : Bool) (s : Store) (authorization : Option String)
    (authNow now : Int) (request : AdminRequest)
    (h : ∃ response, requireAdmin s authorization authNow = .error response) :
    (adminRoute foreignKeys s authorization authNow now request).2 = s ∧
    (adminRoute foreignKeys s authorization authNow now request).1.status = 401 ∧
    (∃ message,
      (adminRoute foreignKeys s authorization authNow now request).1.body = .error message) ∧
    requireAdmin s authorization authNow
      = .error (adminRoute foreignKeys s authorization authNow now request).1 := by
  obtain ⟨response, hr⟩ := h
  have h401 := authorize_error s (bearerToken authorization) authNow response hr
  have hroute : adminRoute foreignKeys s authorization authNow now request = (response, s) := by
    simp only [adminRoute, hr]
  rw [hroute]
  exact ⟨rfl, h401.1, h401.2, hr⟩

/-- C9, worked cases on the demo shop: a delete request without a header, a
create request with an unknown token and an update request with the expired
token are answered 401 and leave the store as it was, while the same delete
request with the valid token removes the product. -/
theorem admin_gate_witness :
    adminRoute true demoStore none 5 5 (.deleteProduct (.int 3))
      = (⟨401, .error "Missing token."⟩, demoStore) ∧
    adminRoute true demoStore (some "Bearer 0000") 5 5
        (.createProduct ⟨some "Mug", some "A mug", .int 32, .int 30, some "img/4", some "Kitchen"⟩)
      = (⟨401, .error "Unauthorized."⟩, demoStore) ∧
    adminRoute true demoStore (some "Bearer c0ffee") 1000 1000
        (.updateProduct (.int 1) ⟨none, none, none, none, some (.int 1), none⟩)
      = (⟨401, .error "Unauthorized."⟩, demoStore) ∧
    (adminRoute true demoStore (some "Bearer c0ffee") 5 5 (.deleteProduct (.int 3))).2.products
      = [demoP1, demoP2] ∧
    (adminRoute true demoStore none 5 5 (.deleteProduct (.int 3))).2 = demoStore :=
  ⟨by decide, by decide, by decide, by decide,
   (admin_gate true demoStore none 5 5 (.deleteProduct (.int 3))
      ⟨⟨401, .error "Missing token."⟩, by decide⟩).1⟩

/-! ## Login -/

theorem sessionRows_append_other (s : Store) (new : AdminSession) (token : String)
    (now : Int) (h : new.token ≠ token) :
    sessionRows { s with admin_sessions := s.admin_sessions ++ [new] } token now
      = sessionRows s token now := by
  simp only [sessionRows, List.filter_append, List.flatMap_append]
  have : List.filter (fun x : AdminSession =>
      decide (x.token = token) && decide (x.expires_at > now)) [new] = [] := by
    simp [h]
  rw [this]
  simp

/-- C10. Effect of a successful login (status 200) at time `now`.  The body
carried an email and a password; some admin user of the store has that email and
a hash the password matches; the response returns the minted token with the id
and email of that user; the store afterwards is the store before with exactly
one session row appended, holding that token, the id of that user, and
`expires_at` equal to `now` plus 7 days (in milliseconds).  No earlier session
had that token, every earlier session row is still there unchanged, and
`authorize` answers for the token of every earlier session, at every time, what
it answered before, whichever user the session belongs to. -/
theorem login_effect (compareSync : String → String → Bool) (s : Store) (body : LoginBody)
    (token : String) (now createdAt : Int)
    (h : (login compareSync s body token now createdAt).1.status = 200) :
    ∃ (user : User) (email password : String),
      body = ⟨some email, some password⟩ ∧
      user ∈ s.users ∧ user.email = email ∧ user.role = "admin" ∧
      compareSync password user.password_hash = true ∧
      (login compareSync s body token now createdAt).1
        = ⟨200, .login token user.id user.email⟩ ∧
      (login compareSync s body token now createdAt).2
        = { s with admin_sessions := s.admin_sessions ++
              [⟨token, user.id, now + 7 * 24 * 60 * 60 * 1000, createdAt⟩] } ∧
      (∀ x ∈ s.admin_sessions, x.token ≠ token) ∧
      (∀ x ∈ s.admin_sessions, ∀ time,
        authorize (login compareSync s body token now createdAt).2 (some x.token) time
          = authorize s (some x.token) time) := by
  obtain ⟨email, password⟩ := body
  cases email with
  | none => simp [login] at h
  | some email =>
  cases password with
  | none => simp [login] at h
  | some password =>
  simp only [login] at h ⊢
  by_cases hempty : email = "" ∨ password = ""
  · rw [if_pos hempty] at h
    simp at h
  · rw [if_neg hempty] at h ⊢
    cases hfind : s.users.find?
        (fun u => decide (u.email = email) && decide (u.role = "admin")) with
    | none =>
      rw [hfind] at h
      simp at h
    | some user =>
      rw [hfind] at h
      simp only at h ⊢
      by_cases hcmp : compareSync password user.password_hash = false
      · rw [if_pos hcmp] at h
        simp at h
      · rw [if_neg hcmp] at h ⊢
        by_cases hdup : token ∈ s.admin_sessions.map AdminSession.token
        · rw [if_pos hdup] at h
          simp at h
        · rw [if_neg hdup]
          have hfresh : ∀ x ∈ s.admin_sessions, x.token ≠ token :=
            fun x hx e => hdup (e ▸ List.mem_map_of_mem AdminSession.token hx)
          have hprop := List.find?_some hfind
          simp only [Bool.and_eq_true, decide_eq_true_eq] at hprop
          refine ⟨user, email, password, rfl, List.mem_of_find?_eq_some hfind, hprop.1,
            hprop.2, by simpa using hcmp, rfl, rfl, hfresh, ?_⟩
          intro x hx time
          simp only [authorize]
          rw [sessionRows_append_other s _ x.token time (fun e => hfresh x hx e.symm)]

/-- C10, worked case: the admin logs in at time 500 on the demo shop, which
already holds a session of the same user; a second session is added that expires
at 500 plus 604800000, and the earlier session is still accepted. -/
theorem login_effect_witness :
    (login demoCompare demoStore ⟨some "admin@example.com", some "admin123"⟩ "beef" 500 501)
      = (⟨200, .login "beef" 1 "admin@example.com"⟩,
         { demoStore with admin_sessions :=
             [⟨"c0ffee", 1, 1000, 0⟩, ⟨"beef", 1, 604800500, 501⟩] }) ∧
    authorize
        (login demoCompare demoStore ⟨some "admin@example.com", some "admin123"⟩
          "beef" 500 501).2 (some "c0ffee") 600
      = .ok ⟨1, "admin@example.com"⟩ ∧
    ∀ x ∈ demoStore.admin_sessions, x.token ≠ "beef" :=
  ⟨by decide, by decide,
   (login_effect demoCompare demoStore ⟨some "admin@example.com", some "admin123"⟩
      "beef" 500 501 (by decide)).elim
     (fun _ hx => hx.elim (fun _ hy => hy.elim (fun _ hz => hz.2.2.2.2.2.2.2.1)))⟩

/-! ## Failed login -/

/-- C11 as stated fails: on the demo shop the known admin logs in with an empty
password, which does not match the stored hash; the answer is 400 "Email and
password required.", not the 401 "Invalid credentials.". -/
theorem login_empty_password_not_invalid_credentials :
    demoCompare "" demoAdmin.password_hash = false ∧
    login demoCompare demoStore ⟨some "admin@example.com", some ""⟩ "beef" 500 501
      = (⟨400, .error "Email and password required."⟩, demoStore) ∧
    (login demoCompare demoStore ⟨some "admin@example.com", some ""⟩ "beef" 500 501).1
      ≠ ⟨401, .error "Invalid credentials."⟩ := by
  decide

/-- C11, amended.  A login that does not answer 200 leaves the store, and so the
session table, as it was and returns no token.  With a non-empty email and a
non-empty password, if no admin user of that email has a hash the password
matches (there is no such user, or the password does not match), the answer is
401 "Invalid credentials.".  With a missing or empty email or password the
answer is 400 "Email and password required.". -/
theorem login_failure (compareSync : String → String → Bool) (s : Store) (body : LoginBody)
    (token : String) (now createdAt : Int) :
    ((login compareSync s body token now createdAt).1.status ≠ 200 →
      (login compareSync s body token now createdAt).2 = s ∧
      ∀ tok id em, (login compareSync s body token now createdAt).1.body ≠ .login tok id em) ∧
    (∀ email password, body = ⟨some email, some password⟩ → email ≠ "" → password ≠ "" →
      (∀ u ∈ s.users, u.email = email → u.role = "admin" →
        compareSync password u.password_hash = false) →
      login compareSync s body token now createdAt
        = (⟨401, .error "Invalid credentials."⟩, s)) ∧
    ((truthy body.email = false ∨ truthy body.password = false) →
      login compareSync s body token now createdAt
        = (⟨400, .error "Email and password required."⟩, s)) := by
  refine ⟨?_, ?_, ?_⟩
  · intro h
    obtain ⟨email, password⟩ := body
    cases email with
    | none => exact ⟨rfl, fun _ _ _ hb => by simp [login] at hb⟩
    | some email =>
    cases password with
    | none => exact ⟨rfl, fun _ _ _ hb => by simp [login] at hb⟩
    | some password =>
    simp only [login] at h ⊢
    by_cases h1 : email = "" ∨ password = ""
    · rw [if_pos h1]
      exact ⟨rfl, fun _ _ _ hb => by simp at hb⟩
    · rw [if_neg h1] at h ⊢
      cases hfind : s.users.find?
          (fun u => decide (u.email = email) && decide (u.role = "admin")) with
      | none => exact ⟨rfl, fun _ _ _ hb => by simp at hb⟩
      | some user =>
        rw [hfind] at h
        simp only at h ⊢
        by_cases h2 : compareSync password user.password_hash = false
        · rw [if_pos h2]
          exact ⟨rfl, fun _ _ _ hb => by simp at hb⟩
        · rw [if_neg h2] at h ⊢
          by_cases h3 : token ∈ s.admin_sessions.map AdminSession.token
          · rw [if_pos h3]
            exact ⟨rfl, fun _ _ _ hb => by simp at hb⟩
          · rw [if_neg h3] at h
            exact absurd rfl h
  · rintro email password rfl he hp hno
    simp only [login]
    rw [if_neg (by simp [he, hp])]
    cases hfind : s.users.find?
        (fun u => decide (u.email = email) && decide (u.role = "admin")) with
    | none => rfl
    | some user =>
      have hprop := List.find?_some hfind
      simp only [Bool.and_eq_true, decide_eq_true_eq] at hprop
      have hcmp := hno user (List.mem_of_find?_eq_some hfind) hprop.1 hprop.2
      simp only [hcmp, if_true]
  · intro h
    obtain ⟨email, password⟩ := body
    cases email with
    | none => rfl
    | some email =>
    cases password with
    | none => rfl
    | some password =>
    simp only [truthy, ne_eq, decide_not, Bool.not_eq_false', decide_eq_true_eq] at h
    simp only [login]
    rw [if_pos h]

/-- C11, worked case (scenario C): `login("admin@example.com", "wrong")` on the
demo shop answers 401 "Invalid credentials." and the session table is as
before. -/
theorem login_failure_witness :
    login demoCompare demoStore ⟨some "admin@example.com", some "wrong"⟩ "beef" 500 501
      = (⟨401, .error "Invalid credentials."⟩, demoStore) :=
  (login_failure demoCompare demoStore ⟨some "admin@example.com", some "wrong"⟩
      "beef" 500 501).2.1
    "admin@example.com" "wrong" rfl (by decide) (by decide) (by decide)

/-! ## What a rejected admin request reveals -/

/-- C12 as stated fails: on the demo shop a request without a header and a
request with an unknown token are both rejected by `requireAdmin`, and the two
responses differ ("Missing token." against "Unauthorized."). -/
theorem missing_and_unknown_token_differ :
    requireAdmin demoStore none 5 = .error ⟨401, .error "Missing token."⟩ ∧
    requireAdmin demoStore (some "Bearer 0000") 5 = .error ⟨401, .error "Unauthorized."⟩ ∧
    (adminRoute true demoStore none 5 5 .listProducts).1
      ≠ (adminRoute true demoStore (some "Bearer 0000") 5 5 .listProducts).1 := by
  decide

theorem requireAdmin_error_shape (s : Store) (authorization : Option String) (now : Int)
    (r : Response) (h : requireAdmin s authorization now = .error r) :
    (tokenPresent authorization = true → r = ⟨401, .error "Unauthorized."⟩) ∧
    (tokenPresent authorization = false → r = ⟨401, .error "Missing token."⟩) := by
  simp only [requireAdmin] at h
  simp only [tokenPresent]
  cases hb : bearerToken authorization with
  | none =>
    rw [hb] at h
    simp only [authorize, Except.error.injEq] at h
    subst h
    simp
  | some t =>
    rw [hb] at h
    simp only [authorize] at h
    by_cases ht : t = ""
    · rw [if_pos ht, Except.error.injEq] at h
      subst h
      simp [ht]
    · rw [if_neg ht] at h
      cases hrows : (sessionRows s t now).head? with
      | none =>
        rw [hrows] at h
        simp only [Except.error.injEq] at h
        subst h
        simp [ht]
      | some row =>
        rw [hrows] at h
        cases h

/-- C12, amended.  Take any two requests to admin routes that `requireAdmin`
rejects (any stores, headers, times and operations).  Both responses have status
401 and a body that is a single error message.  The message depends only on
whether the request carried a token: "Unauthorized." when it did (an unknown and
an expired token are answered alike), "Missing token." when it did not; so two
rejected requests that both carry a token, or both carry none, receive identical
responses. -/
theorem rejected_responses (foreignKeys : Bool) (s1 s2 : Store)
    (a1 a2 : Option String) (n1 n2 m1 m2 : Int) (q1 q2 : AdminRequest)
    (h1 : ∃ r, requireAdmin s1 a1 n1 = .error r)
    (h2 : ∃ r, requireAdmin s2 a2 n2 = .error r) :
    (adminRoute foreignKeys s1 a1 n1 m1 q1).1.status = 401 ∧
    (adminRoute foreignKeys s2 a2 n2 m2 q2).1.status = 401 ∧
    (∃ message, (adminRoute foreignKeys s1 a1 n1 m1 q1).1.body = .error message) ∧
    (∃ message, (adminRoute foreignKeys s2 a2 n2 m2 q2).1.body = .error message) ∧
    (tokenPresent a1 = true →
      (adminRoute foreignKeys s1 a1 n1 m1 q1).1 = ⟨401, .error "Unauthorized."⟩) ∧
    (tokenPresent a1 = false →
      (adminRoute foreignKeys s1 a1 n1 m1 q1).1 = ⟨401, .error "Missing token."⟩) ∧
    (tokenPresent a1 = tokenPresent a2 →
      (adminRoute foreignKeys s1 a1 n1 m1 q1).1 = (adminRoute foreignKeys s2 a2 n2 m2 q2).1) := by
  obtain ⟨r1, hr1⟩ := h1
  obtain ⟨r2, hr2⟩ := h2
  have e1 : (adminRoute foreignKeys s1 a1 n1 m1 q1).1 = r1 := by simp only [adminRoute, hr1]
  have e2 : (adminRoute foreignKeys s2 a2 n2 m2 q2).1 = r2 := by simp only [adminRoute, hr2]
  obtain ⟨p1, q1'⟩ := requireAdmin_error_shape s1 a1 n1 r1 hr1
  obtain ⟨p2, q2'⟩ := requireAdmin_error_shape s2 a2 n2 r2 hr2
  have g1 := authorize_error s1 (bearerToken a1) n1 r1 hr1
  have g2 := authorize_error s2 (bearerToken a2) n2 r2 hr2
  rw [e1, e2]
  refine ⟨g1.1, g2.1, g1.2, g2.2, p1, q1', ?_⟩
  intro hsame
  cases hp : tokenPresent a1 with
  | true => rw [p1 hp, p2 (hsame ▸ hp)]
  | false => rw [q1' hp, q2' (hsame ▸ hp)]

/-- C12, worked case on the demo shop: an unknown token on a delete request and
the expired token on a list request receive the same response. -/
theorem rejected_responses_witness :
    (adminRoute true demoStore (some "Bearer 0000") 5 5 (.deleteProduct (.int 1))).1
      = (adminRoute true demoStore (some "Bearer c0ffee") 2000 2000 .listOrders).1 :=
  (rejected_responses true demoStore demoStore (some "Bearer 0000") (some "Bearer c0ffee")
      5 2000 5 2000 (.deleteProduct (.int 1)) .listOrders
      ⟨⟨401, .error "Unauthorized."⟩, by decide⟩
      ⟨⟨401, .error "Unauthorized."⟩, by decide⟩).2.2.2.2.2.2 (by decide)

/-! ## Malformed order payloads -/

/-- C13 as stated fails: the same call, whose second item has a quantity that is
not an integer, is answered "Invalid item payload." on the demo shop and
"Product not found." on the shop without products, so the outcome of a call
with a malformed item depends on the store. -/
theorem malformed_item_outcome_depends_on_store :
    (JsItem.obj (.int 2) (.frac 1 150)).valid = false ∧
    placeOrder demoStore
        ⟨some "Ann", some "ann@example.com",
         some [.obj (.int 1) (.int 2), .obj (.int 2) (.frac 1 150)]⟩ 7
      = (⟨400, .error "Invalid item payload."⟩, demoStore) ∧
    placeOrder bareStore
        ⟨some "Ann", some "ann@example.com",
         some [.obj (.int 1) (.int 2), .obj (.int 2) (.frac 1 150)]⟩ 7
      = (⟨400, .error "Product not found."⟩, bareStore) := by
  decide

theorem forEachItem_invalid_obj {a b : JsNum} (hv : (JsItem.obj a b).valid = false)
    (rest : List JsItem) (s : Store) (total : Int) (acc : List NormalizedItem) :
    forEachItem (.obj a b :: rest) s total acc = (.error "Invalid item payload.", s) := by
  cases a <;> cases b <;> simp_all [forEachItem, JsItem.valid]

/-- C13, amended.  A call with a missing or empty name or email, or whose items
are not a sequence or are empty, is answered 400 "Invalid order payload." and
the store is not touched, whatever the store holds.  A call that passes that
check and whose first item is malformed (a product id that is not an integer, or
a quantity that is not a strictly positive integer) is answered 400 "Invalid
item payload." whatever the store holds.  A malformed item further down is
reached only after the items before it have been taken from the store (product
ids unique, stocks at most `Number.MAX_SAFE_INTEGER`): when the items before it
are valid and can be fulfilled, the answer is 400 "Invalid item payload."; when
instead one of the items before it is the first that cannot be fulfilled, the
answer is the error of that item, "Product not found." or "Insufficient stock
for one of the items.", whatever follows it, a malformed item included.  In each
case the store after the call is the store before it. -/
theorem invalid_payload (s : Store) (body : OrderBody) (now : Int) :
    ((truthy body.name = false ∨ truthy body.email = false ∨ body.items = none ∨
        body.items = some []) →
      placeOrder s body now = (⟨400, .error "Invalid order payload."⟩, s)) ∧
    (∀ name email a b later, body = ⟨some name, some email, some (.obj a b :: later)⟩ →
      name ≠ "" → email ≠ "" → (JsItem.obj a b).valid = false →
      placeOrder s body now = (⟨400, .error "Invalid item payload."⟩, s)) ∧
    (∀ name email earlier a b later,
      body = ⟨some name, some email, some (earlier ++ .obj a b :: later)⟩ →
      name ≠ "" → email ≠ "" → UniqueProductIds s → StocksInRange s →
      (∀ item ∈ earlier, item.valid = true) → AllFulfillable s earlier →
      (JsItem.obj a b).valid = false →
      placeOrder s body now = (⟨400, .error "Invalid item payload."⟩, s)) ∧
    (∀ name email earlier pid q middle a b later,
      body = ⟨some name, some email,
        some (earlier ++ .obj (.int pid) (.int q) :: (middle ++ .obj a b :: later))⟩ →
      name ≠ "" → email ≠ "" → UniqueProductIds s → StocksInRange s →
      (∀ item ∈ earlier, item.valid = true) → AllFulfillable s earlier → 0 < q →
      (JsItem.obj a b).valid = false →
      ((∀ p ∈ s.products, p.id ≠ pid) →
        placeOrder s body now = (⟨400, .error "Product not found."⟩, s)) ∧
      (∀ p ∈ s.products, p.id = pid → p.stock.floor - requested earlier pid < q →
        placeOrder s body now
          = (⟨400, .error "Insufficient stock for one of the items."⟩, s))) := by
  refine ⟨?_, ?_, ?_, ?_⟩
  · intro h
    obtain ⟨name, email, items⟩ := body
    cases name with
    | none => rfl
    | some name =>
    cases email with
    | none => rfl
    | some email =>
    cases items with
    | none => rfl
    | some items =>
    simp only [truthy, ne_eq, decide_not, Bool.not_eq_false', decide_eq_true_eq,
      Option.some.injEq, false_or] at h
    simp only [placeOrder]
    rw [if_pos]
    rcases h with h | h | h | h
    · exact Or.inl h
    · exact Or.inr (Or.inl h)
    · cases h
    · exact Or.inr (Or.inr (by rw [h]; rfl))
  · rintro name email a b later rfl hn he hv
    exact placeOrder_of_loop_error now hn he (List.cons_ne_nil _ _)
      (forEachItem_invalid_obj hv later s 0 [])
  · rintro name email earlier a b later rfl hn he hu hr hval hf hv
    have hloop := forEachItem_prefix earlier (.obj a b :: later) s 0 [] hu hr hval hf
    rw [forEachItem_invalid_obj hv] at hloop
    exact placeOrder_of_loop_error now hn he (by simp) hloop
  · rintro name email earlier pid q middle a b later rfl hn he hu hr hval hf hq _
    exact ⟨fun hno => placeOrder_first_missing hu hr now hn he hval hf hq hno,
      fun p hp hid hlt => placeOrder_first_short hu hr now hn he hval hf hq hp hid hlt⟩

/-- C13, worked cases.  An empty name is answered "Invalid order payload."; a
first item of quantity 0 is answered "Invalid item payload."; an order for
product 1 followed by an item whose quantity is not an integer is answered
"Product not found." on the shop without products, where the first item cannot
be fulfilled, although the second item is malformed.  Each leaves the store as
it was. -/
theorem invalid_payload_witness :
    placeOrder demoStore ⟨some "", some "ann@example.com", some [.obj (.int 1) (.int 1)]⟩ 7
      = (⟨400, .error "Invalid order payload."⟩, demoStore) ∧
    placeOrder demoStore (demoOrder [(1, 0), (2, 1)]) 7
      = (⟨400, .error "Invalid item payload."⟩, demoStore) ∧
    placeOrder bareStore
        ⟨some "Ann", some "ann@example.com",
         some [.obj (.int 1) (.int 2), .obj (.int 2) (.frac 1 150)]⟩ 7
      = (⟨400, .error "Product not found."⟩, bareStore) :=
  ⟨(invalid_payload demoStore
      ⟨some "", some "ann@example.com", some [.obj (.int 1) (.int 1)]⟩ 7).1
      (Or.inl (by decide)),
   (invalid_payload demoStore (demoOrder [(1, 0), (2, 1)]) 7).2.1
      "Ann" "ann@example.com" (.int 1) (.int 0) [.obj (.int 2) (.int 1)] rfl
      (by decide) (by decide) (by decide),
   ((invalid_payload bareStore
      ⟨some "Ann", some "ann@example.com",
       some [.obj (.int 1) (.int 2), .obj (.int 2) (.frac 1 150)]⟩ 7).2.2.2
      "Ann" "ann@example.com" [] 1 2 [] (.int 2) (.frac 1 150) [] rfl
      (by decide) (by decide) (by decide) (by decide)
      (fun _ hm => (List.not_mem_nil _ hm).elim) (allFulfillable_nil _)
      (by decide) (by decide)).1 (by decide)⟩

/-! ## Numeric validation of product fields -/

/-- C14, the failing input.  A create request with price 32 and stock 2.5 is
accepted on the demo shop: the answer is 200 and the new product row holds a
stock that is not an integer (integer part 2).  The update handler rejects the
same stock with 400 "Invalid stock." and leaves the store as it was. -/
theorem createProduct_accepts_fractional_stock :
    createProduct demoStore (mugBody (.int 32) (.frac 2 250)) 50
      = (⟨200, .created 4⟩,
         { demoStore with
             products := demoStore.products ++
               [⟨4, "Studio Mug", "A mug", 3200, "img/4", ⟨2, false⟩, "Kitchen", 50⟩],
             seq_products := 4 }) ∧
    updateProduct demoStore (.int 1) ⟨none, none, none, none, none, some (.frac 2 250)⟩
      = (⟨400, .error "Invalid stock."⟩, demoStore) := by
  decide

/-- The part of the numeric validation that holds.  The create handler rejects,
with the store untouched, a price or stock that is not finite or is negative;
the update handler rejects, with the store untouched, a supplied price that is
not finite or is negative and a supplied stock that is not an integer or is
negative. -/
theorem numeric_validation_rejects (s : Store) (now : Int) :
    (∀ body : ProductBody,
      (body.price.isFinite = false ∨ body.price.ltZero = true ∨
        body.stock.isFinite = false ∨ body.stock.ltZero = true) →
      (createProduct s body now).1.status = 400 ∧ (createProduct s body now).2 = s) ∧
    (∀ (productId : Int) (body : UpdateBody) (x : JsNum),
      ((body.price = some x ∧ (x.isFinite = false ∨ x.ltZero = true)) ∨
       (body.stock = some x ∧ (x.isInteger = false ∨ x.ltZero = true))) →
      (updateProduct s (.int productId) body).1.status = 400 ∧
      (updateProduct s (.int productId) body).2 = s) := by
  constructor
  · intro body h
    simp only [createProduct]
    split_ifs with h1 h2
    · exact ⟨rfl, rfl⟩
    · exact ⟨rfl, rfl⟩
    · exact absurd (by tauto) h2
  · intro productId body x h
    have hc : ∃ message, collectUpdates body = .error ⟨400, .error message⟩ := by
      simp only [collectUpdates]
      rcases h with ⟨hp, hbad⟩ | ⟨hs, hbad⟩
      · rw [hp]
        simp only [pushPrice, if_pos hbad]
        exact ⟨_, rfl⟩
      · rw [hs]
        cases hprice : pushPrice
            (pushText body.name Assignment.name ++
             pushText body.description Assignment.description ++
             pushText body.image_url Assignment.image_url ++
             pushText body.category Assignment.category) body.price with
        | error r =>
          cases hbp : body.price with
          | none => rw [hbp] at hprice; simp [pushPrice] at hprice
          | some y =>
            rw [hbp] at hprice
            simp only [pushPrice] at hprice
            split_ifs at hprice
            simp only [Except.error.injEq] at hprice
            exact ⟨_, by rw [← hprice]⟩
        | ok updates =>
          simp only [pushStock, if_pos hbad]
          exact ⟨_, rfl⟩
    obtain ⟨message, hc⟩ := hc
    simp only [updateProduct, hc]
    exact ⟨trivial, trivial⟩

/-! ## Result of a product update -/

/-- C15 as stated fails: an update of product 1 of the demo shop that supplies
the name field, with the empty string as its value, is answered 400 "No updates
provided." although a field was supplied and the product exists. -/
theorem empty_name_counts_as_no_update :
    (⟨some "", none, none, none, none, none⟩ : UpdateBody).name ≠ none ∧
    (∃ p ∈ demoStore.products, p.id = 1) ∧
    updateProduct demoStore (.int 1) ⟨some "", none, none, none, none, none⟩
      = (⟨400, .error "No updates provided."⟩, demoStore) := by
  decide

theorem pushText_nil (field : Option String) (mk : String → Assignment) :
    pushText field mk = [] ↔ truthy field = false := by
  cases field with
  | none => simp [pushText, truthy]
  | some v =>
    by_cases hv : v = ""
    · simp [pushText, truthy, hv]
    · simp [pushText, truthy, hv]

/-- With valid numeric fields the handler collects its updates, and collects
none exactly when the body supplies no field. -/
theorem collectUpdates_valid (body : UpdateBody)
    (hp : ∀ x, body.price = some x → x.isFinite = true ∧ x.ltZero = false)
    (hs : ∀ x, body.stock = some x → x.isInteger = true ∧ x.ltZero = false) :
    ∃ updates, collectUpdates body = .ok updates ∧
      (updates.length = 0 ↔ suppliesField body = false) := by
  obtain ⟨name, description, image_url, category, price, stock⟩ := body
  have htexts : (pushText name Assignment.name ++ pushText description Assignment.description ++
      pushText image_url Assignment.image_url ++ pushText category Assignment.category) = [] ↔
      (truthy name = false ∧ truthy description = false ∧ truthy image_url = false ∧
        truthy category = false) := by
    simp only [List.append_eq_nil, pushText_nil, and_assoc]
  cases price with
  | none =>
    cases stock with
    | none =>
      refine ⟨pushText name Assignment.name ++ pushText description Assignment.description ++
        pushText image_url Assignment.image_url ++ pushText category Assignment.category,
        rfl, ?_⟩
      rw [List.length_eq_zero, htexts]
      simp [suppliesField, and_assoc]
    | some y =>
      obtain ⟨h1, h2⟩ := hs y rfl
      have hok : ¬ (y.isInteger = false ∨ y.ltZero = true) := by simp [h1, h2]
      refine ⟨(pushText name Assignment.name ++ pushText description Assignment.description ++
        pushText image_url Assignment.image_url ++ pushText category Assignment.category) ++
        [Assignment.stock y.toSql], ?_, ?_⟩
      · simp only [collectUpdates, pushPrice, pushStock, if_neg hok]
      · simp [suppliesField]
  | some x =>
    obtain ⟨g1, g2⟩ := hp x rfl
    have gok : ¬ (x.isFinite = false ∨ x.ltZero = true) := by simp [g1, g2]
    cases stock with
    | none =>
      refine ⟨(pushText name Assignment.name ++ pushText description Assignment.description ++
        pushText image_url Assignment.image_url ++ pushText category Assignment.category) ++
        [Assignment.price_cents x.round100], ?_, ?_⟩
      · simp only [collectUpdates, pushPrice, pushStock, if_neg gok]
      · simp [suppliesField]
    | some y =>
      obtain ⟨h1, h2⟩ := hs y rfl
      have hok : ¬ (y.isInteger = false ∨ y.ltZero = true) := by simp [h1, h2]
      refine ⟨((pushText name Assignment.name ++ pushText description Assignment.description ++
        pushText image_url Assignment.image_url ++ pushText category Assignment.category) ++
        [Assignment.price_cents x.round100]) ++ [Assignment.stock y.toSql], ?_, ?_⟩
      · simp only [collectUpdates, pushPrice, pushStock, if_neg gok, if_neg hok]
      · simp [suppliesField]

theorem runUpdate_changes (s : Store) (updates : List Assignment) (productId : Int) :
    ((runUpdate s updates productId).1 = 0 ↔ ¬ ∃ p ∈ s.products, p.id = productId) ∧
    ((¬ ∃ p ∈ s.products, p.id = productId) → (runUpdate s updates productId).2 = s) := by
  constructor
  · simp only [runUpdate, List.length_eq_zero, List.filter_eq_nil_iff, decide_eq_true_eq,
      not_exists, not_and]
  · intro hno
    have hmap : s.products.map (fun p =>
        if p.id = productId then updates.foldl Assignment.apply p else p) = s.products := by
      conv_rhs => rw [← List.map_id s.products]
      apply List.map_congr_left
      intro p hp
      have : ¬ p.id = productId := fun e => hno ⟨p, hp, e⟩
      simp [this]
    simp only [runUpdate, hmap]

/-- C15, amended.  An update with an integer id and valid numeric fields (a
supplied price finite and not negative, a supplied stock an integer and not
negative).  A field counts as supplied when it is a non-empty text field or a
price or stock that is not `undefined`; an empty string counts as not supplied.
The answer is 400 "No updates provided.", with the store unchanged, exactly
when no field is supplied.  When a field is supplied the answer is 200 "ok"
exactly when a product with that id exists, and when none exists it is 404
"Product not found." and the store is unchanged. -/
theorem updateProduct_result (s : Store) (productId : Int) (body : UpdateBody)
    (hp : ∀ x, body.price = some x → x.isFinite = true ∧ x.ltZero = false)
    (hs : ∀ x, body.stock = some x → x.isInteger = true ∧ x.ltZero = false) :
    ((updateProduct s (.int productId) body).1 = ⟨400, .error "No updates provided."⟩
      ↔ suppliesField body = false) ∧
    (suppliesField body = false → (updateProduct s (.int productId) body).2 = s) ∧
    (suppliesField body = true →
      ((updateProduct s (.int productId) body).1 = ⟨200, .status "ok"⟩
        ↔ ∃ p ∈ s.products, p.id = productId)) ∧
    (suppliesField body = true → (¬ ∃ p ∈ s.products, p.id = productId) →
      updateProduct s (.int productId) body = (⟨404, .error "Product not found."⟩, s)) := by
  obtain ⟨updates, hc, hlen⟩ := collectUpdates_valid body hp hs
  obtain ⟨hzero, hsame⟩ := runUpdate_changes s updates productId
  have hnone : suppliesField body = false →
      updateProduct s (.int productId) body = (⟨400, .error "No updates provided."⟩, s) := by
    intro h
    simp only [updateProduct, hc, if_pos (hlen.2 h)]
  have hsome : suppliesField body = true →
      updateProduct s (.int productId) body =
        if (runUpdate s updates productId).1 = 0
        then (⟨404, .error "Product not found."⟩, (runUpdate s updates productId).2)
        else (⟨200, .status "ok"⟩, (runUpdate s updates productId).2) := by
    intro h
    have : ¬ updates.length = 0 := fun h0 => by
      rw [hlen.1 h0] at h
      cases h
    simp only [updateProduct, hc, if_neg this]
  refine ⟨?_, fun h => by rw [hnone h], ?_, ?_⟩
  · constructor
    · intro h
      by_contra hsup
      rw [hsome (by simpa using hsup)] at h
      split_ifs at h <;> simp at h
    · intro h
      rw [hnone h]
  · intro h
    rw [hsome h]
    constructor
    · intro hr
      by_contra hno
      rw [if_pos (hzero.2 hno)] at hr
      simp at hr
    · intro hex
      rw [if_neg (fun h0 => hzero.1 h0 hex)]
  · intro h hno
    rw [hsome h, if_pos (hzero.2 hno), hsame hno]

/-- C15, worked cases on the demo shop: a stock update of product 1 answers
"ok"; the same update of the unknown product 404 answers "Product not found."
and changes nothing; an update with no field answers "No updates provided.". -/
theorem updateProduct_result_witness :
    (updateProduct demoStore (.int 1) ⟨none, none, none, none, none, some (.int 9)⟩).1
      = ⟨200, .status "ok"⟩ ∧
    updateProduct demoStore (.int 404) ⟨none, none, none, none, none, some (.int 9)⟩
      = (⟨404, .error "Product not found."⟩, demoStore) ∧
    updateProduct demoStore (.int 1) ⟨none, none, none, none, none, none⟩
      = (⟨400, .error "No updates provided."⟩, demoStore) :=
  ⟨by decide,
   (updateProduct_result demoStore 404 ⟨none, none, none, none, none, some (.int 9)⟩
      (fun _ h => by cases h)
      (fun x h => by cases h; exact ⟨rfl, rfl⟩)).2.2.2 (by decide) (by decide),
   by decide⟩

end PulseShop
